import Mathlib

/-!
Verification development for the DataPlaneBroker/DPB slicing controllers
(`src/share/tupleslicer.py` and `src/share/portslicer.py`).

The Python code is shallowly embedded: Python tuples become `List ℤ`,
Python sets become `Finset`, Python dicts become association lists, and
every `dp.send_msg(...)` site becomes a constructor of an OpenFlow
message type, so that each operation returns the successor state
together with the list of messages it emitted.  Where Python iterates
over a set (whose order is unspecified), the embedding iterates in the
canonical sorted order of the element type; no theorem below depends on
the particular order chosen.
-/

namespace DPB

/-! ### Association lists (embedding of Python dicts) -/

/-- Lookup in an association list; embeds Python `d.get(k)`. -/
def alookup {α β : Type} [DecidableEq α] : List (α × β) → α → Option β
  | [], _ => none
  | e :: r, k => if e.1 = k then some e.2 else alookup r k

/-- Remove every entry with the given key; embeds Python `d.pop(k)` /
`del d[k]` (dict keys are unique, so at most one entry is removed in any
state arising from `aset`). -/
def aerase {α β : Type} [DecidableEq α] : List (α × β) → α → List (α × β)
  | [], _ => []
  | e :: r, k => if e.1 = k then aerase r k else e :: aerase r k

/-- Set a key to a value; embeds Python `d[k] = v`. -/
def aset {α β : Type} [DecidableEq α] (l : List (α × β)) (k : α) (v : β) : List (α × β) :=
  aerase l k ++ [(k, v)]

/-- Keys of an association list; embeds Python `d.keys()`. -/
def akeys {α β : Type} (l : List (α × β)) : List α := l.map Prod.fst

theorem alookup_append {α β : Type} [DecidableEq α] (l1 l2 : List (α × β)) (k : α) :
    alookup (l1 ++ l2) k =
      match alookup l1 k with
      | some v => some v
      | none => alookup l2 k := by
  induction l1 with
  | nil => simp [alookup]
  | cons e r ih =>
    by_cases h : e.1 = k <;> simp [alookup, h, ih]

theorem alookup_aerase {α β : Type} [DecidableEq α] (l : List (α × β)) (k : α) :
    alookup (aerase l k) k = none := by
  induction l with
  | nil => rfl
  | cons e r ih =>
    by_cases h : e.1 = k <;> simp [aerase, alookup, h, ih]

theorem alookup_aerase_ne {α β : Type} [DecidableEq α] (l : List (α × β)) (k k' : α)
    (hne : k ≠ k') : alookup (aerase l k) k' = alookup l k' := by
  induction l with
  | nil => rfl
  | cons e r ih =>
    by_cases h : e.1 = k
    · have h2 : ¬ e.1 = k' := by rw [h]; exact hne
      simp [aerase, alookup, h, h2, ih, hne]
    · by_cases h2 : e.1 = k' <;> simp [aerase, alookup, h, h2, ih, Ne.symm hne]

theorem alookup_aset {α β : Type} [DecidableEq α] (l : List (α × β)) (k : α) (v : β) :
    alookup (aset l k v) k = some v := by
  rw [aset, alookup_append, alookup_aerase]
  simp [alookup]

theorem alookup_aset_ne {α β : Type} [DecidableEq α] (l : List (α × β)) (k k' : α) (v : β)
    (hne : k ≠ k') : alookup (aset l k v) k' = alookup l k' := by
  rw [aset, alookup_append, alookup_aerase_ne l k k' hne]
  cases h : alookup l k' <;> simp [alookup, hne]

/-! ### Endpoint tuples and the conflict relation -/

/-- An endpoint: a Python tuple of integers `(port[, vlan[, inner-vlan]])`.
Arbitrary lists are allowed, matching Python, where validation of arity
happens in `create_slice`. -/
abbrev Tup := List ℤ

/-- Enumerate a finite set in ascending order by repeatedly extracting the
minimum; the first argument is the cardinality, making the recursion
structural. -/
def fsortAux {α : Type} [LinearOrder α] : ℕ → Finset α → List α
  | 0, _ => []
  | n + 1, s =>
    match s.min with
    | none => []
    | some m => m :: fsortAux n (s.erase m)

/-- Canonical ascending enumeration of a finite set.  Python iterates sets
in unspecified order; the embedding fixes this order.  No theorem below
depends on which order was chosen. -/
def fsort {α : Type} [LinearOrder α] (s : Finset α) : List α := fsortAux s.card s

theorem fsortAux_mem {α : Type} [LinearOrder α] :
    ∀ (n : ℕ) (s : Finset α), s.card = n → ∀ t, (t ∈ fsortAux n s ↔ t ∈ s)
  | 0, s, h, t => by
    rw [Finset.card_eq_zero] at h
    subst h
    simp [fsortAux]
  | n + 1, s, h, t => by
    rcases hmin : s.min with _ | m
    · have hne : s.Nonempty := Finset.card_pos.mp (by omega)
      obtain ⟨a, ha⟩ := hne
      obtain ⟨b, hb⟩ := Finset.min_of_mem ha
      rw [hmin] at hb
      exact Option.noConfusion hb
    · unfold fsortAux
      rw [hmin]
      have hmem : m ∈ s := Finset.mem_of_min hmin
      have hcard : (s.erase m).card = n := by
        rw [Finset.card_erase_of_mem hmem, h]
        rfl
      rw [List.mem_cons, fsortAux_mem n (s.erase m) hcard t]
      constructor
      · rintro (rfl | h2)
        · exact hmem
        · exact Finset.mem_of_mem_erase h2
      · intro h2
        by_cases hmt : t = m
        · exact Or.inl hmt
        · exact Or.inr (Finset.mem_erase.mpr ⟨hmt, h2⟩)

theorem mem_fsort {α : Type} [LinearOrder α] {s : Finset α} {t : α} :
    t ∈ fsort s ↔ t ∈ s :=
  fsortAux_mem s.card s rfl t

theorem fsort_empty {α : Type} [LinearOrder α] : fsort (∅ : Finset α) = [] := rfl

theorem fsortAux_nodup {α : Type} [LinearOrder α] :
    ∀ (n : ℕ) (s : Finset α), s.card = n → (fsortAux n s).Nodup
  | 0, _, _ => List.nodup_nil
  | n + 1, s, h => by
    rcases hmin : s.min with _ | m
    · have hne : s.Nonempty := Finset.card_pos.mp (by omega)
      obtain ⟨a, ha⟩ := hne
      obtain ⟨b, hb⟩ := Finset.min_of_mem ha
      rw [hmin] at hb
      exact Option.noConfusion hb
    · unfold fsortAux
      rw [hmin]
      have hmem : m ∈ s := Finset.mem_of_min hmin
      have hcard : (s.erase m).card = n := by
        rw [Finset.card_erase_of_mem hmem, h]
        rfl
      refine List.nodup_cons.mpr ⟨?_, fsortAux_nodup n (s.erase m) hcard⟩
      intro hmem2
      have := (fsortAux_mem n (s.erase m) hcard m).mp hmem2
      exact (Finset.mem_erase.mp this).1 rfl

theorem fsort_nodup {α : Type} [LinearOrder α] (s : Finset α) : (fsort s).Nodup :=
  fsortAux_nodup s.card s rfl

/-- Canonical enumeration of a finite set of tuples. -/
def tsort (s : Finset Tup) : List Tup := fsort s

/-- Embeds `tuples_conflict` (tupleslicer.py lines 258-271).  Out-of-range
indexing defaults to 0; the length guards ensure every index actually read
is in range, exactly as in the Python original. -/
def tuples_conflict (tup1 tup2 : Tup) : Bool :=
  if tup1.getD 0 0 ≠ tup2.getD 0 0 then false
  else if tup1.length = 1 then true
  else if tup2.length = 1 then true
  else if tup1.getD 1 0 ≠ tup2.getD 1 0 then false
  else if tup1.length = 2 then true
  else if tup2.length = 2 then true
  else decide (tup1.getD 2 0 = tup2.getD 2 0)

theorem tuples_conflict_comm (t1 t2 : Tup) :
    tuples_conflict t1 t2 = tuples_conflict t2 t1 := by
  unfold tuples_conflict
  generalize t1.getD 0 0 = a1
  generalize t2.getD 0 0 = a2
  generalize t1.getD 1 0 = b1
  generalize t2.getD 1 0 = b2
  generalize t1.getD 2 0 = c1
  generalize t2.getD 2 0 = c2
  generalize t1.length = n1
  generalize t2.length = n2
  by_cases h0 : a1 = a2
  · subst h0
    by_cases l1 : n1 = 1
    · subst l1
      by_cases l2 : n2 = 1 <;> simp [l2]
    · by_cases l2 : n2 = 1
      · subst l2
        simp [l1]
      · by_cases h1 : b1 = b2
        · subst h1
          by_cases m1 : n1 = 2
          · subst m1
            by_cases m2 : n2 = 2 <;> simp [l1, l2, m2]
          · by_cases m2 : n2 = 2
            · subst m2
              simp [l1, l2, m1]
            · by_cases h2 : c1 = c2
              · subst h2
                simp [l1, l2, m1, m2]
              · have h2b : ¬ c2 = c1 := fun hh => h2 hh.symm
                simp [l1, l2, m1, m2, h2, h2b]
        · have h1b : ¬ b2 = b1 := fun hh => h1 hh.symm
          simp [l1, l2, h1, h1b]
  · have h0b : ¬ a2 = a1 := fun hh => h0 hh.symm
    simp [h0, h0b]

theorem tuples_conflict_refl (t : Tup) : tuples_conflict t t = true := by
  unfold tuples_conflict
  by_cases h1 : t.length = 1 <;> by_cases h2 : t.length = 2 <;> simp [h1, h2]

theorem tuples_conflict_iff_agree (t1 t2 : Tup)
    (h1a : 1 ≤ t1.length) (h1b : t1.length ≤ 3)
    (h2a : 1 ≤ t2.length) (h2b : t2.length ≤ 3) :
    tuples_conflict t1 t2 = true ↔
      ∀ i, i < t1.length → i < t2.length → t1.getD i 0 = t2.getD i 0 := by
  rcases t1 with _ | ⟨a, _ | ⟨b, _ | ⟨c, _ | ⟨d, t1r⟩⟩⟩⟩ <;>
    rcases t2 with _ | ⟨x, _ | ⟨y, _ | ⟨z, _ | ⟨w, t2r⟩⟩⟩⟩ <;>
      simp only [List.length] at h1a h1b h2a h2b <;> try omega
  all_goals (
    first
    | (by_cases e0 : a = x
       · by_cases e1 : b = y
         · by_cases e2 : c = z
           · subst e0; subst e1; subst e2
             apply iff_of_true
             · simp [tuples_conflict]
             · intro i hi1 hi2
               simp only [List.length] at hi1 hi2
               interval_cases i <;> rfl
           · apply iff_of_false
             · simp [tuples_conflict, e0, e1, e2]
             · intro hAll
               exact e2 (by simpa using hAll 2 (by simp) (by simp))
         · apply iff_of_false
           · simp [tuples_conflict, e0, e1]
           · intro hAll
             exact e1 (by simpa using hAll 1 (by simp) (by simp))
       · apply iff_of_false
         · simp [tuples_conflict, e0]
         · intro hAll
           exact e0 (by simpa using hAll 0 (by simp) (by simp)))
    | (by_cases e0 : a = x
       · by_cases e1 : b = y
         · subst e0; subst e1
           apply iff_of_true
           · simp [tuples_conflict]
           · intro i hi1 hi2
             simp only [List.length] at hi1 hi2
             interval_cases i <;> rfl
         · apply iff_of_false
           · simp [tuples_conflict, e0, e1]
           · intro hAll
             exact e1 (by simpa using hAll 1 (by simp) (by simp))
       · apply iff_of_false
         · simp [tuples_conflict, e0]
         · intro hAll
           exact e0 (by simpa using hAll 0 (by simp) (by simp)))
    | (by_cases e0 : a = x
       · subst e0
         apply iff_of_true
         · simp [tuples_conflict]
         · intro i hi1 hi2
           simp only [List.length] at hi1 hi2
           interval_cases i <;> rfl
       · apply iff_of_false
         · simp [tuples_conflict, e0]
         · intro hAll
           exact e0 (by simpa using hAll 0 (by simp) (by simp))))

/-- C7: for all tuples of arity 1-3, `tuples_conflict` returns true iff the
tuples have equal port fields and, for every position present in both, equal
values at that position; in particular `(6)` conflicts with every `(6,*)` and
`(6,*,*)`, `(6,100)` conflicts with `(6)` and every `(6,100,*)`, and
`(6,100,200)` conflicts with `(6)`, `(6,100)` and `(6,100,200)` but with no
other 3-tuple on port 6. -/
theorem C7_tuples_conflict :
    (∀ t1 t2 : Tup, 1 ≤ t1.length → t1.length ≤ 3 → 1 ≤ t2.length → t2.length ≤ 3 →
      (tuples_conflict t1 t2 = true ↔
        (t1.getD 0 0 = t2.getD 0 0 ∧
          ∀ i, i < t1.length → i < t2.length → t1.getD i 0 = t2.getD i 0)))
  ∧ (∀ v w : ℤ, tuples_conflict [6] [6, v] = true ∧ tuples_conflict [6] [6, v, w] = true)
  ∧ (tuples_conflict [6, 100] [6] = true ∧ ∀ w : ℤ, tuples_conflict [6, 100] [6, 100, w] = true)
  ∧ (tuples_conflict [6, 100, 200] [6] = true ∧ tuples_conflict [6, 100, 200] [6, 100] = true ∧
      tuples_conflict [6, 100, 200] [6, 100, 200] = true)
  ∧ (∀ t2 : Tup, t2.length = 3 → t2.getD 0 0 = 6 →
      (tuples_conflict [6, 100, 200] t2 = true ↔ t2 = [6, 100, 200])) := by
  refine ⟨?_, ?_, ⟨?_, ?_⟩, ⟨?_, ?_, ?_⟩, ?_⟩
  · intro t1 t2 h1a h1b h2a h2b
    rw [tuples_conflict_iff_agree t1 t2 h1a h1b h2a h2b]
    constructor
    · intro h
      exact ⟨by
        rcases Nat.lt_or_ge 0 t2.length with h2 | h2
        · exact h 0 (by omega) h2
        · omega, h⟩
    · exact fun h => h.2
  · intro v w
    constructor <;> simp [tuples_conflict]
  · simp [tuples_conflict]
  · intro w
    simp [tuples_conflict]
  · simp [tuples_conflict]
  · simp [tuples_conflict]
  · simp [tuples_conflict]
  · intro t2 hlen hport
    rcases t2 with _ | ⟨x, _ | ⟨y, _ | ⟨z, _ | ⟨w, t2r⟩⟩⟩⟩ <;> simp only [List.length] at hlen <;>
      try omega
    simp only [List.getD, List.getElem?_cons_zero, Option.getD_some] at hport
    subst hport
    by_cases hy : y = 100
    · by_cases hz : z = 200
      · subst hy; subst hz
        simp [tuples_conflict]
      · subst hy
        simp [tuples_conflict, hz]
        exact fun hh => hz hh.symm
    · simp [tuples_conflict, hy]
      exact fun hh => (hy hh.symm).elim

/-- Witness for C7 at concrete tuples, discharging the arity hypotheses. -/
theorem C7_tuples_conflict_witness :
    (tuples_conflict [6, 100] [6, 100, 7] = true ↔
      (List.getD ([6, 100] : Tup) 0 0 = List.getD ([6, 100, 7] : Tup) 0 0 ∧
        ∀ i, i < List.length ([6, 100] : Tup) → i < List.length ([6, 100, 7] : Tup) →
          List.getD ([6, 100] : Tup) i 0 = List.getD ([6, 100, 7] : Tup) i 0)) ∧
    (tuples_conflict [6, 100, 200] [6, 101, 200] = true ↔ ([6, 101, 200] : Tup) = [6, 100, 200]) :=
  ⟨C7_tuples_conflict.1 [6, 100] [6, 100, 7] (by simp) (by simp) (by simp) (by simp),
   C7_tuples_conflict.2.2.2.2 [6, 101, 200] (by simp) (by simp)⟩

/-! ### The dense ID allocator -/

/-- Embeds `SwitchStatus.claim_group` (portslicer.py lines 453-463); the same
steps are inlined in `claim_group_for_tuple` (tupleslicer.py lines 857-876)
and in `set_meter`: take the minimum free ID, discard it, and if the free set
became empty add back one more than the taken ID.  Python `min()` raises on
an empty set; that case is unreachable (the free set always refills), and the
embedding returns 0 leaving the state unchanged there. -/
def claim_group (free : Finset ℕ) : ℕ × Finset ℕ :=
  match free.min with
  | none => (0, free)
  | some g =>
    let rest := free.erase g
    (g, if rest = ∅ then insert (g + 1) rest else rest)

/-- Embeds `SwitchStatus.release_group` (portslicer.py lines 465-467):
reinsert the ID into the free set. -/
def release_group (free : Finset ℕ) (g : ℕ) : Finset ℕ := insert g free

/-- The IDs returned by `n` consecutive claims started from the given free
set. -/
def claimSeq (free : Finset ℕ) : ℕ → List ℕ
  | 0 => []
  | n + 1 => (claim_group free).1 :: claimSeq (claim_group free).2 n

/-- Allocator states reachable from the initial free set of portslicer /
tupleslicer `SwitchStatus.__init__` (`free_groups = set([0])`) by claims and
releases.  `held` is the ghost set of IDs claimed and not yet released; a
release is only issued for a held ID, matching `release_group_by_tuple`,
which releases exactly the IDs currently mapped to a tuple. -/
inductive AllocReach : Finset ℕ → Finset ℕ → Prop where
  | start : AllocReach {0} ∅
  | claim {free held : Finset ℕ} : AllocReach free held →
      AllocReach (claim_group free).2 (insert (claim_group free).1 held)
  | release {free held : Finset ℕ} {g : ℕ} : AllocReach free held → g ∈ held →
      AllocReach (release_group free g) (held.erase g)

theorem claim_group_of_nonempty (free : Finset ℕ) (h : free.Nonempty) :
    claim_group free =
      (free.min' h,
        if free.erase (free.min' h) = ∅ then insert (free.min' h + 1) (free.erase (free.min' h))
        else free.erase (free.min' h)) := by
  have hmin : free.min = some (free.min' h) := by
    rw [← Finset.coe_min' h]
    rfl
  unfold claim_group
  rw [hmin]

theorem claim_group_fst (free : Finset ℕ) (h : free.Nonempty) :
    (claim_group free).1 = free.min' h := by
  rw [claim_group_of_nonempty free h]

theorem claim_group_snd (free : Finset ℕ) (h : free.Nonempty) :
    (claim_group free).2 =
      if free.erase (free.min' h) = ∅ then insert (free.min' h + 1) (free.erase (free.min' h))
      else free.erase (free.min' h) := by
  rw [claim_group_of_nonempty free h]

theorem claim_group_singleton (k : ℕ) : claim_group {k} = (k, {k + 1}) := by
  have h : ({k} : Finset ℕ).Nonempty := ⟨k, Finset.mem_singleton_self k⟩
  rw [claim_group_of_nonempty {k} h]
  simp

theorem claimSeq_singleton (k n : ℕ) : claimSeq {k} n = List.range' k n := by
  induction n generalizing k with
  | zero => rfl
  | succ n ih => simp [claimSeq, claim_group_singleton, ih, List.range']

/-- Invariant of reachable allocator states: the free set is never empty, no
ID is simultaneously free and held, and every held ID lies strictly below
some free ID. -/
theorem allocReach_invariant {free held : Finset ℕ} (h : AllocReach free held) :
    free.Nonempty ∧ Disjoint free held ∧ ∀ x ∈ held, ∃ f ∈ free, x < f := by
  induction h with
  | start =>
    exact ⟨⟨0, Finset.mem_singleton_self 0⟩, by simp, by simp⟩
  | @claim free held _ ih =>
    obtain ⟨hne, hdisj, hlt⟩ := ih
    rw [claim_group_fst free hne, claim_group_snd free hne]
    set g := free.min' hne with hg
    by_cases hempty : free.erase g = ∅
    · have hfree : free = {g} := by
        rcases (Finset.erase_eq_empty_iff free g).mp hempty with h1 | h1
        · exact absurd h1 (Finset.nonempty_iff_ne_empty.mp hne)
        · exact h1
      rw [if_pos hempty, hempty]
      refine ⟨?_, ?_, ?_⟩
      · exact ⟨g + 1, Finset.mem_insert_self _ _⟩
      · rw [Finset.disjoint_left]
        intro x hx hx2
        rcases Finset.mem_insert.mp hx with h1 | h1
        · subst h1
          rcases Finset.mem_insert.mp hx2 with h2 | h2
          · omega
          · obtain ⟨f, hf, hfl⟩ := hlt _ h2
            rw [hfree] at hf
            simp at hf
            omega
        · exact absurd h1 (Finset.not_mem_empty x)
      · intro x hx
        rcases Finset.mem_insert.mp hx with h2 | h2
        · exact ⟨g + 1, Finset.mem_insert_self _ _, by omega⟩
        · obtain ⟨f, hf, hfl⟩ := hlt _ h2
          rw [hfree] at hf
          simp at hf
          exact ⟨g + 1, Finset.mem_insert_self _ _, by omega⟩
    · obtain ⟨y, hy⟩ := Finset.nonempty_iff_ne_empty.mpr hempty
      have hyg : g < y := by
        have h1 := Finset.mem_of_mem_erase hy
        have h2 := Finset.ne_of_mem_erase hy
        have h3 := Finset.min'_le free y h1
        omega
      rw [if_neg hempty]
      refine ⟨⟨y, hy⟩, ?_, ?_⟩
      · rw [Finset.disjoint_left]
        intro x hx hx2
        have hxf := Finset.mem_of_mem_erase hx
        have hxg := Finset.ne_of_mem_erase hx
        rcases Finset.mem_insert.mp hx2 with h2 | h2
        · exact hxg h2
        · exact (Finset.disjoint_left.mp hdisj) hxf h2
      · intro x hx
        rcases Finset.mem_insert.mp hx with h2 | h2
        · exact ⟨y, hy, h2 ▸ hyg⟩
        · obtain ⟨f, hf, hfl⟩ := hlt _ h2
          by_cases hfg : f = g
          · exact ⟨y, hy, by omega⟩
          · exact ⟨f, Finset.mem_erase.mpr ⟨hfg, hf⟩, hfl⟩
  | @release free held g _ hg ih =>
    obtain ⟨hne, hdisj, hlt⟩ := ih
    refine ⟨?_, ?_, ?_⟩
    · exact ⟨g, Finset.mem_insert_self g free⟩
    · rw [Finset.disjoint_left]
      intro x hx hx2
      have hx2a := Finset.mem_of_mem_erase hx2
      have hx2b := Finset.ne_of_mem_erase hx2
      rcases Finset.mem_insert.mp hx with h2 | h2
      · exact hx2b (h2.symm ▸ rfl)
      · exact (Finset.disjoint_left.mp hdisj) h2 hx2a
    · intro x hx
      obtain ⟨f, hf, hfl⟩ := hlt _ (Finset.mem_of_mem_erase hx)
      exact ⟨f, Finset.mem_insert_of_mem hf, hfl⟩

/-- C8: IdAllocator semantics.  A claim returns the minimum of the free set,
removes it, and refills with max+1 exactly when the set would become empty;
release reinserts; `n` consecutive claims from the initial state return
`0, 1, ..., n-1`; a claim never returns a held ID; and after releasing `g` the
next claim returns `g` whenever `g` is below every other free ID. -/
theorem C8_idallocator :
    (∀ (free : Finset ℕ) (h : free.Nonempty),
        (claim_group free).1 = free.min' h
      ∧ (free.erase (free.min' h) ≠ ∅ → (claim_group free).2 = free.erase (free.min' h))
      ∧ (free.erase (free.min' h) = ∅ →
          (claim_group free).2 = insert (free.max' h + 1) (free.erase (free.min' h))))
  ∧ (∀ (free : Finset ℕ) (g : ℕ), release_group free g = insert g free)
  ∧ (∀ n : ℕ, claimSeq {0} n = List.range n)
  ∧ (∀ free held : Finset ℕ, AllocReach free held → (claim_group free).1 ∉ held)
  ∧ (∀ (free : Finset ℕ) (g : ℕ), (∀ x ∈ free, g ≤ x) →
      (claim_group (release_group free g)).1 = g) := by
  refine ⟨?_, fun _ _ => rfl, ?_, ?_, ?_⟩
  · intro free h
    refine ⟨claim_group_fst free h, fun hne => ?_, fun hemp => ?_⟩
    · rw [claim_group_snd free h, if_neg hne]
    · have hfree : free = {free.min' h} := by
        rcases (Finset.erase_eq_empty_iff free (free.min' h)).mp hemp with h1 | h1
        · exact absurd h1 (Finset.nonempty_iff_ne_empty.mp h)
        · exact h1
      have honly : ∀ x ∈ free, x = free.min' h := by
        intro x hx
        rw [hfree] at hx
        simpa using hx
      have hmax : free.max' h = free.min' h := honly _ (free.max'_mem h)
      rw [claim_group_snd free h, if_pos hemp, hmax]
  · intro n
    rw [claimSeq_singleton 0 n, List.range_eq_range']
  · intro free held hreach hmem
    obtain ⟨hne, hdisj, _⟩ := allocReach_invariant hreach
    rw [claim_group_fst free hne] at hmem
    exact (Finset.disjoint_left.mp hdisj) (free.min'_mem hne) hmem
  · intro free g hbelow
    have hne : (release_group free g).Nonempty := ⟨g, Finset.mem_insert_self g free⟩
    rw [claim_group_fst _ hne]
    refine le_antisymm (Finset.min'_le _ g (Finset.mem_insert_self g free)) ?_
    refine Finset.le_min' _ hne g ?_
    intro y hy
    rcases Finset.mem_insert.mp hy with h2 | h2
    · omega
    · exact hbelow y h2

/-- Witness for C8 at concrete allocator states, discharging the nonemptiness,
reachability and minimality hypotheses. -/
theorem C8_idallocator_witness :
    (claim_group {3, 5}).1 = ({3, 5} : Finset ℕ).min' ⟨3, by decide⟩
  ∧ claimSeq {0} 4 = List.range 4
  ∧ (claim_group {1}).1 ∉ ({0} : Finset ℕ)
  ∧ (claim_group (release_group {5, 7} 2)).1 = 2 := by
  refine ⟨(C8_idallocator.1 {3, 5} ⟨3, by decide⟩).1, C8_idallocator.2.2.1 4, ?_, ?_⟩
  · have hreach : AllocReach {1} {0} := by
      have h := AllocReach.claim AllocReach.start
      simpa [claim_group_singleton] using h
    exact C8_idallocator.2.2.2.1 {1} {0} hreach
  · exact C8_idallocator.2.2.2.2 {5, 7} 2 (by decide)

/-! ### OpenFlow actions and messages (tupleslicer) -/

/-- OpenFlow reserved port OFPP_IN_PORT. -/
def OFPP_IN_PORT : ℤ := 0xfffffff8

/-- OpenFlow action, restricted to the actions the tuple slicer builds. -/
inductive Act where
  | output (p : ℤ)
  | pushVlan (ethertype : ℕ)
  | setVlanVid (v : ℤ)
  | setMetadata (m : ℤ)
  | popVlan
  | group (g : ℕ)
  | outputController
deriving DecidableEq

/-- OpenFlow match fields used by the tuple slicer; `none` is a wildcard.
Fields: in_port, eth_src, metadata, vlan_vid. -/
structure OFMatch where
  in_port : Option ℤ
  eth_src : Option ℕ
  metadata : Option ℤ
  vlan_vid : Option ℤ
deriving DecidableEq

/-- Embeds `SwitchStatus.tuple_match` (tupleslicer.py lines 632-656): the
ingress match for a tuple, together with its table and priority.  A MAC
qualifier adds `eth_src` and raises the priority from 4 to 5. -/
def tuple_match (tup : Tup) (mac : Option ℕ) : OFMatch × ℕ × ℕ :=
  if tup.length = 1 then
    match mac with
    | none => (⟨some (tup.getD 0 0), none, none, none⟩, 0, 4)
    | some m => (⟨some (tup.getD 0 0), some m, none, none⟩, 0, 5)
  else if tup.length = 2 then
    match mac with
    | none => (⟨some (tup.getD 0 0), none, some (tup.getD 1 0), none⟩, 1, 4)
    | some m => (⟨some (tup.getD 0 0), some m, some (tup.getD 1 0), none⟩, 1, 5)
  else
    match mac with
    | none =>
      (⟨some (tup.getD 0 0), none, some (tup.getD 1 0),
        some (Int.lor 4096 (tup.getD 2 0))⟩, 1, 4)
    | some m =>
      (⟨some (tup.getD 0 0), some m, some (tup.getD 1 0),
        some (Int.lor 4096 (tup.getD 2 0))⟩, 1, 5)

/-- Embeds `SwitchStatus.tuple_action` (tupleslicer.py lines 663-678): the
egress action list for a tuple, pushing the tag stack its arity demands and
substituting OFPP_IN_PORT when the output port equals the input port. -/
def tuple_action (tup : Tup) (in_port : ℤ) : List Act :=
  let out_port := if tup.getD 0 0 = in_port then OFPP_IN_PORT else tup.getD 0 0
  if tup.length = 1 then [Act.output out_port]
  else if tup.length = 2 then
    [Act.pushVlan 0x8100, Act.setVlanVid (Int.lor 4096 (tup.getD 1 0)), Act.output out_port]
  else
    [Act.pushVlan 0x8100, Act.setVlanVid (Int.lor 4096 (tup.getD 2 0)),
     Act.pushVlan 0x88a8, Act.setVlanVid (Int.lor 4096 (tup.getD 1 0)),
     Act.output out_port]

/-- One constructor per `dp.send_msg` site reachable from slice maintenance,
learning and packet-in handling in tupleslicer.py, carrying that site's
distinguishing parameters. -/
inductive Msg where
  /-- FlowMod DELETE on a tuple's ingress match in `delete_static_rules`
  (lines 370-379); the cookie filter is the tuple's group when one exists. -/
  | delIngress (t : Tup) (cookie : Option ℕ)
  /-- GroupMod DELETE (lines 397-400 and 964-967). -/
  | delGroup (g : ℕ)
  /-- FlowMod DELETE in table 2 matching `metadata=g` in
  `delete_static_rules` (lines 404-413). -/
  | delFloodT2 (g : ℕ)
  /-- FlowMod DELETE on a tuple's ingress match in `delete_dynamic_rules`
  (lines 949-957), with no cookie filter. -/
  | delDynIngress (t : Tup)
  /-- FlowMod DELETE in table 2 filtered by `cookie=g` in
  `delete_dynamic_rules` (lines 971-981). -/
  | delDynByCookie (g : ℕ)
  /-- FlowMod DELETE in table 2 matching `metadata=g` in
  `delete_dynamic_rules` (lines 985-993). -/
  | delDynByMeta (g : ℕ)
  /-- FlowMod ADD of an E-Line rule in `add_static_rules` (lines 448-468):
  ingress match of `src`, action list `acts`. -/
  | addEline (src : Tup) (acts : List Act)
  /-- GroupMod ADD with the given buckets (lines 499-504, `added` case). -/
  | groupAdd (g : ℕ) (buckets : List (List Act))
  /-- GroupMod MODIFY with the given buckets (lines 499-504). -/
  | groupModify (g : ℕ) (buckets : List (List Act))
  /-- FlowMod ADD of the priority-1 table-2 flooding rule `metadata=g ->
  group g`, cookie sentinel (lines 513-534). -/
  | addFlood (g : ℕ)
  /-- FlowMod ADD of the ingress-to-controller rule for a new tuple, with the
  tuple's group as cookie (lines 536-554). -/
  | addCtrl (t : Tup) (cookie : Option ℕ)
  /-- FlowMod ADD of the table-0 first-tag rule for (port, vlan) in
  `ensure_first_tag_rule` (lines 1086-1110). -/
  | addFirstTag (p v : ℤ)
  /-- FlowMod DELETE of a table-0 first-tag rule in
  `revalidate_first_tag_rules` (lines 1056-1069). -/
  | delFirstTag (p v : ℤ)
  /-- MeterMod DELETE in `drop_meter` (lines 797-801). -/
  | delMeter (m : ℕ)
  /-- FlowMod ADD of a table-2 learned unicast rule in `_learn`
  (lines 1297-1316). -/
  | addLearnT2 (cookie : ℕ) (sgroup : Option ℕ) (mac : ℕ) (acts : List Act)
  /-- FlowMod DELETE of stale ingress rules for a MAC on another tuple in
  `_learn` (lines 1323-1338). -/
  | delLearnSrc (cookie : Option ℕ) (table : ℕ) (mac : ℕ)
  /-- FlowMod ADD of the priority-5 ingress learning rule in `_learn`
  (lines 1344-1363). -/
  | addLearnIngress (cookie : ℕ) (t : Tup) (mac : ℕ) (timeout : ℕ)
  /-- PacketOut in `packet_in_handler` (lines 1435-1439). -/
  | packetOut (in_port : ℤ) (acts : List Act)
deriving DecidableEq

/-! ### Per-slice and per-switch state (tupleslicer) -/

/-- Embeds the `Slice` object state (tupleslicer.py lines 273-313): the
target and established tuple sets, the MAC table, and the `sanitized` set
computed during revalidation (initially empty; Python creates the attribute
on first `sanitize`). -/
structure SliceData where
  target : Finset Tup
  established : Finset Tup
  mac_tup : List (ℕ × Tup)
  sanitized : Finset Tup
deriving DecidableEq

/-- Embeds `SwitchStatus.__init__` state (tupleslicer.py lines 595-623).
Slices are stored in an arena list; a `Slice` object reference becomes an
index into it.  `datapath` records whether a datapath is attached. -/
structure SwitchStatus where
  datapath : Bool
  known_ports : Finset ℤ
  free_groups : Finset ℕ
  group_to_tuple : List (ℕ × Tup)
  tuple_to_group : List (Tup × ℕ)
  free_meters : Finset ℕ
  inmeters : List (Tup × ℕ)
  outmeters : List (Tup × ℕ)
  slices : List SliceData
  target_index : List (Tup × ℕ)
  invalid_slices : Finset ℕ
  invalid_first_tag_rules : Finset Tup
deriving DecidableEq

/-- The freshly constructed `SwitchStatus` (no datapath, free sets `{0}`,
everything else empty). -/
def SwitchStatus.init : SwitchStatus :=
  ⟨false, ∅, {0}, [], [], {0}, [], [], [], [], ∅, ∅⟩

/-- Read a slice from the arena (out-of-range reads return an empty slice;
they never occur in reachable states). -/
def SwitchStatus.getSlice (st : SwitchStatus) (sid : ℕ) : SliceData :=
  st.slices.getD sid ⟨∅, ∅, [], ∅⟩

/-- Replace a slice in the arena. -/
def SwitchStatus.setSlice (st : SwitchStatus) (sid : ℕ) (sl : SliceData) : SwitchStatus :=
  { st with slices := st.slices.set sid sl }

/-- The distinct slice ids present in the endpoint index; embeds Python
`set(self.target_index.values())`. -/
def SwitchStatus.indexSids (st : SwitchStatus) : List ℕ :=
  fsort ((st.target_index.map Prod.snd).toFinset)

/-- Embeds `SwitchStatus.set_datapath` (lines 625-627). -/
def SwitchStatus.set_datapath (st : SwitchStatus) (b : Bool) : SwitchStatus :=
  { st with datapath := b, known_ports := ∅ }

/-- Embeds `SwitchStatus.get_config` (lines 680-684). -/
def SwitchStatus.get_config (st : SwitchStatus) : List (List Tup) :=
  st.indexSids.map (fun sid => tsort (st.getSlice sid).target)

/-- Embeds `Slice.see` (lines 287-290); the returned previous binding is
discarded by every caller. -/
def SwitchStatus.slice_see (st : SwitchStatus) (sid : ℕ) (mac : ℕ) (tup : Tup) : SwitchStatus :=
  let sl := st.getSlice sid
  st.setSlice sid { sl with mac_tup := aset sl.mac_tup mac tup }

/-- Embeds `Slice.lookup` (lines 296-300): the last-seen tuple of a MAC, or
none when it is unknown or not established. -/
def SliceData.lookup_mac (sl : SliceData) (mac : ℕ) : Option Tup :=
  match alookup sl.mac_tup mac with
  | none => none
  | some tup => if tup ∈ sl.established then some tup else none

/-- Embeds `Slice.sanitize` (lines 305-314): restrict the target to tuples
whose port is currently known. -/
def SwitchStatus.sanitize (st : SwitchStatus) (sid : ℕ) : SwitchStatus :=
  let sl := st.getSlice sid
  st.setSlice sid
    { sl with sanitized := sl.target.filter (fun tup => tup.getD 0 0 ∈ st.known_ports) }

/-- Embeds `Slice.match` (lines 316-317); renamed because `match` is a Lean
keyword. -/
def SwitchStatus.match_slice (st : SwitchStatus) (sid : ℕ) : SwitchStatus :=
  let sl := st.getSlice sid
  st.setSlice sid { sl with established := sl.sanitized }

/-- Embeds `Slice.invalidate` (lines 319-324). -/
def SwitchStatus.invalidate_slice (st : SwitchStatus) (sid : ℕ) : SwitchStatus :=
  let sl := st.getSlice sid
  let st := st.setSlice sid { sl with established := ∅ }
  { st with invalid_slices := insert sid st.invalid_slices }

/-- Embeds `SwitchStatus.invalidate` (lines 936-939). -/
def SwitchStatus.invalidate (st : SwitchStatus) : SwitchStatus :=
  st.indexSids.foldl (fun s sid => s.invalidate_slice sid) st

/-- Embeds `Slice.abandon` (lines 582-593).  The Python `assert us == self`
is dropped; it holds in every reachable state by the index-target agreement
invariant proved below. -/
def SwitchStatus.abandon (st : SwitchStatus) (sid : ℕ) (tup : Tup) : SwitchStatus :=
  let sl := st.getSlice sid
  if tup ∉ sl.target then st
  else
    let st := st.setSlice sid { sl with target := sl.target.erase tup }
    { st with
        target_index := aerase st.target_index tup,
        invalid_slices := insert sid st.invalid_slices }

/-- Embeds `Slice.adopt` (lines 560-580): collect every conflicting index
entry (other than the tuple itself when already owned by this slice), abandon
them all, then take ownership. -/
def SwitchStatus.adopt (st : SwitchStatus) (sid : ℕ) (tup : Tup) : SwitchStatus :=
  let sl := st.getSlice sid
  if tup ∈ sl.target then st
  else
    let abd := st.target_index.filter
      (fun e => tuples_conflict tup e.1 && !(decide (e.1 = tup) && decide (e.2 = sid)))
    let st := abd.foldl (fun s e => s.abandon e.2 e.1) st
    let sl2 := st.getSlice sid
    let st := st.setSlice sid { sl2 with target := insert tup sl2.target }
    { st with
        target_index := aset st.target_index tup sid,
        invalid_slices := insert sid st.invalid_slices }

/-- Embeds `SwitchStatus.get_group_for_tuple` (lines 853-854). -/
def SwitchStatus.get_group_for_tuple (st : SwitchStatus) (tup : Tup) : Option ℕ :=
  alookup st.tuple_to_group tup

/-- Embeds `SwitchStatus.claim_group_for_tuple` (lines 857-876): return the
existing group, or claim the lowest free one and record the mapping in both
directions.  The boolean reports whether a fresh claim happened. -/
def SwitchStatus.claim_group_for_tuple (st : SwitchStatus) (tup : Tup) :
    (ℕ × Bool) × SwitchStatus :=
  match alookup st.tuple_to_group tup with
  | some g => ((g, false), st)
  | none =>
    let gp := claim_group st.free_groups
    ((gp.1, true),
      { st with
          free_groups := gp.2,
          tuple_to_group := aset st.tuple_to_group tup gp.1,
          group_to_tuple := aset st.group_to_tuple gp.1 tup })

/-- Embeds `SwitchStatus.release_group_by_tuple` (lines 880-889). -/
def SwitchStatus.release_group_by_tuple (st : SwitchStatus) (tup : Tup) :
    Option ℕ × SwitchStatus :=
  match alookup st.tuple_to_group tup with
  | none => (none, st)
  | some g =>
    (some g,
      { st with
          tuple_to_group := aerase st.tuple_to_group tup,
          group_to_tuple := aerase st.group_to_tuple g,
          free_groups := release_group st.free_groups g })

/-- Embeds `SwitchStatus.port_added` (lines 903-910), with the reserved-range
filter on ports above 0x7fffffff. -/
def SwitchStatus.port_added (st : SwitchStatus) (port : ℤ) : SwitchStatus :=
  if port > 0x7fffffff then st
  else { st with known_ports := insert port st.known_ports }

/-- Embeds `SwitchStatus.port_removed` (lines 914-926): forget the port and
invalidate every slice with a tuple on it. -/
def SwitchStatus.port_removed (st : SwitchStatus) (port : ℤ) : SwitchStatus :=
  let st := { st with known_ports := st.known_ports.erase port }
  st.target_index.foldl
    (fun s e =>
      if e.1.getD 0 0 = port then { s with invalid_slices := insert e.2 s.invalid_slices }
      else s)
    st

/-- Embeds `SwitchStatus.discard_tuple` (lines 929-934). -/
def SwitchStatus.discard_tuple (st : SwitchStatus) (tup : Tup) : SwitchStatus :=
  match alookup st.target_index tup with
  | none => st
  | some sid => st.abandon sid tup

/-- Embeds `SwitchStatus.invalidate_first_tag_rule` (lines 1077-1081):
record `tup[0:2]` as a candidate stale first-tag rule (only tuples of
length at least 2). -/
def SwitchStatus.invalidate_first_tag_rule (st : SwitchStatus) (tup : Tup) : SwitchStatus :=
  if tup.length < 2 then st
  else { st with invalid_first_tag_rules := insert (tup.take 2) st.invalid_first_tag_rules }

/-- Embeds `SwitchStatus.ensure_first_tag_rule` (lines 1086-1110): emit the
table-0 (port, vlan) pop-and-goto rule.  No state is tracked; Python reissues
the rule on every call. -/
def SwitchStatus.ensure_first_tag_rule (st : SwitchStatus) (tup : Tup) : List Msg :=
  if tup.length < 2 then []
  else [Msg.addFirstTag (tup.getD 0 0) (tup.getD 1 0)]

/-- Embeds `SwitchStatus.revalidate_first_tag_rules` (lines 1044-1073):
discard candidates still referenced by some slice's tuples, emit deletes for
the remaining candidates, and clear the candidate set. -/
def SwitchStatus.revalidate_first_tag_rules (st : SwitchStatus) : SwitchStatus × List Msg :=
  let remaining := st.indexSids.foldl
    (fun acc sid => (tsort (st.getSlice sid).target).foldl (fun a tup => a.erase (tup.take 2)) acc)
    st.invalid_first_tag_rules
  let msgs := (tsort remaining).map (fun t => Msg.delFirstTag (t.getD 0 0) (t.getD 1 0))
  ({ st with invalid_first_tag_rules := ∅ }, msgs)

/-- Embeds `SwitchStatus.drop_meter` on `outmeters` (lines 785-803).  Python
`mp.pop(tup)` raises on a missing key; the sweep only calls it on present
keys, and the embedding returns the state unchanged there. -/
def SwitchStatus.drop_outmeter (st : SwitchStatus) (tup : Tup) : SwitchStatus × List Msg :=
  match alookup st.outmeters tup with
  | none => (st, [])
  | some m =>
    ({ st with outmeters := aerase st.outmeters tup, free_meters := insert m st.free_meters },
      [Msg.delMeter m])

/-- Embeds `SwitchStatus.drop_meter` on `inmeters` (lines 782-803). -/
def SwitchStatus.drop_inmeter (st : SwitchStatus) (tup : Tup) : SwitchStatus × List Msg :=
  match alookup st.inmeters tup with
  | none => (st, [])
  | some m =>
    ({ st with inmeters := aerase st.inmeters tup, free_meters := insert m st.free_meters },
      [Msg.delMeter m])

/-- Embeds `SwitchStatus.set_meter` (lines 805-849): the body begins with
`if True: return None`, so no state is changed and no message is sent. -/
def SwitchStatus.set_meter (st : SwitchStatus) : SwitchStatus := st

/-- Embeds `SwitchStatus.update_rates` (lines 690-695): calls `set_inmeter` /
`set_outmeter` for each tuple, each of which delegates to the disabled
`set_meter`; a no-op. -/
def SwitchStatus.update_rates (st : SwitchStatus) (tups : Finset Tup)
    (inrates outrates : Tup → Option ℕ) : SwitchStatus :=
  st

/-- Iterate a message-emitting operation over a list, threading the state
and concatenating messages; Python's `for x in xs: self.op(x)` where `op`
both mutates and sends. -/
def mfold {α : Type} (step : SwitchStatus → α → SwitchStatus × List Msg)
    (l : List α) (acc : SwitchStatus × List Msg) : SwitchStatus × List Msg :=
  l.foldl (fun a x => ((step a.1 x).1, a.2 ++ (step a.1 x).2)) acc

/-- Embeds `Slice.delete_static_rules` (lines 335-413): when the sanitized
set differs from the established set, delete the ingress rules of the stale
tuples, and on a multi-to-small transition also delete their groups, flood
rules and release the group IDs. -/
def SwitchStatus.delete_static_rules (st : SwitchStatus) (sid : ℕ) : SwitchStatus × List Msg :=
  let sl := st.getSlice sid
  if sl.sanitized = sl.established then (st, [])
  else
    let oldtups :=
      if sl.established.card = 2 then sl.established
      else if sl.sanitized.card ≤ 2 then sl.established
      else sl.established \ sl.sanitized
    let acc1 := mfold
      (fun s tup =>
        let st2 := s.invalidate_first_tag_rule tup
        (st2, [Msg.delIngress tup (st2.get_group_for_tuple tup)]))
      (tsort oldtups) (st, [])
    if sl.sanitized.card ≤ 2 ∧ sl.established.card > 2 then
      mfold
        (fun s tup =>
          let rel := s.release_group_by_tuple tup
          match rel.1 with
          | none => (rel.2, [])
          | some g => (rel.2, [Msg.delGroup g, Msg.delFloodT2 g]))
        (tsort oldtups) acc1
    else acc1

/-- Embeds `Slice.add_static_rules` (lines 422-555).  The meter maps are
read (`get_meters`) but `set_meter` is disabled, so both maps are empty in
every reachable state and no meter instruction ever appears; the ryu OF1.3
parser also has no `OFPActionMeter`, so the per-bucket meter branch is dead
code. -/
def SwitchStatus.add_static_rules (st : SwitchStatus) (sid : ℕ) : SwitchStatus × List Msg :=
  let sl := st.getSlice sid
  if sl.sanitized = sl.established then (st, [])
  else if sl.sanitized.card < 2 then (st, [])
  else if sl.sanitized.card = 2 then
    let tups := tsort sl.sanitized
    let t0 := tups.getD 0 []
    let t1 := tups.getD 1 []
    (st,
      (st.ensure_first_tag_rule t0 ++ [Msg.addEline t0 (tuple_action t1 (t0.getD 0 0))]) ++
      (st.ensure_first_tag_rule t1 ++ [Msg.addEline t1 (tuple_action t0 (t1.getD 0 0))]))
  else
    let newports :=
      if sl.established.card ≤ 2 then sl.sanitized else sl.sanitized \ sl.established
    let accG := mfold
      (fun s stup =>
        let cl := s.claim_group_for_tuple stup
        let g := cl.1.1
        let added := cl.1.2
        let buckets := ((tsort sl.sanitized).filter (fun d => decide (d ≠ stup))).map
          (fun d => tuple_action d (stup.getD 0 0))
        (cl.2,
          (if added then [Msg.groupAdd g buckets] else [Msg.groupModify g buckets]) ++
            (if added then [Msg.addFlood g] else [])))
      (tsort sl.sanitized) (st, [])
    mfold
      (fun s stup =>
        (s, [Msg.addCtrl stup (s.get_group_for_tuple stup)] ++ s.ensure_first_tag_rule stup))
      (tsort newports) accG

/-- Embeds `SwitchStatus.delete_dynamic_rules` (lines 941-993): tear down
everything pertaining to a tuple removed from its slice. -/
def SwitchStatus.delete_dynamic_rules (st : SwitchStatus) (tup : Tup) : SwitchStatus × List Msg :=
  let st := st.invalidate_first_tag_rule tup
  let rel := st.release_group_by_tuple tup
  match rel.1 with
  | none => (rel.2, [Msg.delDynIngress tup])
  | some g =>
    (rel.2, [Msg.delDynIngress tup, Msg.delGroup g, Msg.delDynByCookie g, Msg.delDynByMeta g])

/-- Embeds the meter sweep at the end of `SwitchStatus.revalidate`
(lines 1031-1035): drop every outmeters entry, then every inmeters entry,
whose tuple is no longer in the target index. -/
def SwitchStatus.meter_sweep (st : SwitchStatus) : SwitchStatus × List Msg :=
  let staleOut := tsort
    ((st.outmeters.map Prod.fst).toFinset \ (st.target_index.map Prod.fst).toFinset)
  let acc4 := mfold (fun s tup => s.drop_outmeter tup) staleOut (st, [])
  let staleIn := tsort
    ((acc4.1.inmeters.map Prod.fst).toFinset \ (acc4.1.target_index.map Prod.fst).toFinset)
  mfold (fun s tup => s.drop_inmeter tup) staleIn acc4

/-- Embeds `SwitchStatus.revalidate` (lines 995-1038): the reset phase for
tuples dropped from their slice's target, then sanitize, the delete pass,
the add pass, the commit of established sets, the first-tag GC, and the
meter sweep.  Nothing in the loop bodies mutates `invalid_slices`, so
snapshotting it up front matches Python's iteration. -/
def SwitchStatus.revalidate (st : SwitchStatus) : SwitchStatus × List Msg :=
  if st.datapath = false then (st, [])
  else
    let invalids := fsort st.invalid_slices
    let ttr := invalids.foldl
      (fun acc sid => acc ∪ ((st.getSlice sid).established \ (st.getSlice sid).target))
      (∅ : Finset Tup)
    let acc0 := mfold (fun s tup => s.delete_dynamic_rules tup) (tsort ttr) (st, [])
    let st1 := invalids.foldl (fun s sid => s.sanitize sid) acc0.1
    let acc1 := mfold (fun s sid => s.delete_static_rules sid) invalids (st1, acc0.2)
    let acc2 := mfold (fun s sid => s.add_static_rules sid) invalids acc1
    let st2 := invalids.foldl (fun s sid => s.match_slice sid) acc2.1
    let st3 := { st2 with invalid_slices := ∅ }
    let r3 := st3.revalidate_first_tag_rules
    let sw := r3.1.meter_sweep
    (sw.1, acc2.2 ++ r3.2 ++ sw.2)

/-- Embeds the per-tuple validation in `create_slice` (lines 703-723):
arity 1-3 and no negative component. -/
def validTup (tup : Tup) : Bool :=
  !decide (tup.length < 1) && !decide (tup.length > 3) &&
  !decide (tup.getD 0 0 < 0) &&
  (!decide (tup.length > 1) || !decide (tup.getD 1 0 < 0)) &&
  (!decide (tup.length > 2) || !decide (tup.getD 2 0 < 0))

/-- The whole-request validation in `create_slice` (lines 703-723): every
tuple valid and no two distinct tuples of the request in conflict. -/
def requestValid (tups : Finset Tup) : Bool :=
  decide (∀ tup ∈ tups, validTup tup = true ∧
    ∀ otup ∈ tups, otup ≠ tup → tuples_conflict tup otup = false)

/-- The maximum-overlap search in `create_slice` (lines 728-738): scan the
request, look up each tuple's owning slice, and keep the first slice whose
overlap strictly exceeds the best so far. -/
def SwitchStatus.findBest (st : SwitchStatus) (tups : Finset Tup) : Option ℕ :=
  ((tsort tups).foldl
    (fun (acc : Option ℕ × ℕ) tup =>
      match alookup st.target_index tup with
      | none => acc
      | some sid =>
        let overlap := ((st.getSlice sid).target ∩ tups).card
        if overlap > acc.2 then (some sid, overlap) else acc)
    (none, 0)).1

/-- Allocate a fresh empty slice in the arena; embeds `Slice(self)`. -/
def SwitchStatus.newSlice (st : SwitchStatus) : ℕ × SwitchStatus :=
  (st.slices.length, { st with slices := st.slices ++ [⟨∅, ∅, [], ∅⟩] })

/-- Embeds `SwitchStatus.create_slice` (lines 697-755): reject empty or
invalid requests with no state change; otherwise adopt the request into the
maximum-overlap slice when one exists, moving that slice's leftover tuples
into a fresh sibling slice, or adopt everything into a brand-new slice. -/
def SwitchStatus.create_slice (st : SwitchStatus) (tups : Finset Tup)
    (inrates outrates : Tup → Option ℕ) : Option ℕ × SwitchStatus :=
  if tups = ∅ then (none, st)
  else if ¬ requestValid tups then (none, st)
  else
    let st := st.update_rates tups inrates outrates
    match st.findBest tups with
    | some best =>
      let st := (tsort (tups \ (st.getSlice best).target)).foldl
        (fun s t => s.adopt best t) st
      let abandoned := (st.getSlice best).target \ tups
      let ns := st.newSlice
      let st := (tsort abandoned).foldl (fun s t => s.adopt ns.1 t) ns.2
      (some best, st)
    | none =>
      let ns := st.newSlice
      let st := (tsort tups).foldl (fun s t => s.adopt ns.1 t) ns.2
      (some ns.1, st)

/-- Embeds `TupleSlicer._learn` (lines 1266-1365): revalidate first, then
look up the tuple's slice and group; bail out (returning no slice) when the
datapath is absent, the tuple is unowned, or it has no group.  Otherwise
record the MAC sighting and emit the table-2 unicast rules, the stale-source
deletes, and the priority-5 ingress learning rule.  The meter reads
(`get_inmeter` / `get_outmeter`) always return none because `set_meter` is
disabled. -/
def SwitchStatus.learn (st : SwitchStatus) (tup : Tup) (mac : ℕ) (timeout : ℕ) :
    Option ℕ × SwitchStatus × List Msg :=
  if st.datapath = false then (none, st, [])
  else
    let r := st.revalidate
    match alookup r.1.target_index tup with
    | none => (none, r.1, r.2)
    | some sid =>
      let tups := (r.1.getSlice sid).target
      match r.1.get_group_for_tuple tup with
      | none => (none, r.1, r.2)
      | some group =>
        let st2 := r.1.slice_see sid mac tup
        let m1 := (tsort tups).map (fun stup =>
          let sgroup := st2.get_group_for_tuple stup
          let acts := if some group = sgroup then [] else tuple_action tup (stup.getD 0 0)
          Msg.addLearnT2 group sgroup mac acts)
        let m2 := ((tsort tups).filter (fun stup => decide (stup ≠ tup))).map (fun stup =>
          Msg.delLearnSrc (st2.get_group_for_tuple stup) (tuple_match stup (some mac)).2.1 mac)
        (some sid, st2, r.2 ++ m1 ++ m2 ++ [Msg.addLearnIngress group tup mac timeout])

/-- Result of the packet-in handler: the final state, the emitted messages,
and whether the handler raised an exception. -/
structure PIResult where
  state : SwitchStatus
  msgs : List Msg
  crashed : Bool
deriving DecidableEq

/-- Embeds `TupleSlicer.packet_in_handler` (lines 1367-1439): reconstruct
the ingress tuple from table id, in_port, metadata and vlan_vid, learn the
source MAC, then packet-out either to the learned destination tuple or to
the source tuple's group.  When `_learn` returns `None` (e.g. the tuple is
in no slice), the subsequent unguarded `slize.lookup(dmac)` raises
`AttributeError`; the embedding reports that as `crashed = true`. -/
def SwitchStatus.packet_in_handler (st : SwitchStatus) (tbl : ℕ) (in_port : ℤ)
    (metadata : ℤ) (vlan_vid : Option ℤ) (mac dmac : ℕ) : PIResult :=
  let pop_vlan : Bool := if tbl = 0 then false else vlan_vid.isSome
  let tup : Tup :=
    if tbl = 0 then [in_port]
    else
      match vlan_vid with
      | some v => [in_port, metadata, Int.land v 0x0fff]
      | none => [in_port, metadata]
  let r := st.learn tup mac 600
  match r.1 with
  | none => ⟨r.2.1, r.2.2, true⟩
  | some sid =>
    match (r.2.1.getSlice sid).lookup_mac dmac with
    | none =>
      match r.2.1.get_group_for_tuple tup with
      | none => ⟨r.2.1, r.2.2, false⟩
      | some g =>
        let acts := if pop_vlan then [Act.popVlan, Act.group g] else [Act.group g]
        ⟨r.2.1, r.2.2 ++ [Msg.packetOut in_port acts], false⟩
    | some dtup =>
      if dtup = tup then ⟨r.2.1, r.2.2, false⟩
      else
        let acts0 := tuple_action dtup in_port
        let acts := if pop_vlan then Act.popVlan :: acts0 else acts0
        ⟨r.2.1, r.2.2 ++ [Msg.packetOut in_port acts], false⟩

/-! ### The REST facade (tupleslicer `SliceController`) -/

/-- One endpoint spec of a POSTed slice: `{"circuit": [...], "ingress-bw":
N?, "egress-bw": N?}`. -/
structure EndpointSpec where
  circuit : List ℤ
  inbw : Option ℕ
  outbw : Option ℕ
deriving DecidableEq

/-- The optional `learn` field of a POST body. -/
structure LearnSpec where
  mac : ℕ
  tup : List ℤ
  timeout : ℕ
deriving DecidableEq

/-- A parsed POST body for one switch. -/
structure RestConfig where
  disused : List (List ℤ)
  slices : List (List EndpointSpec)
  ls : Option LearnSpec
deriving DecidableEq

/-- Embeds `SliceController.set_config` (lines 1457-1499) for one switch:
`none` models a body that fails JSON parsing (`ValueError`, status 400).
Otherwise apply `disused`, call `create_slice` per requested slice (its
return value is ignored, exactly as in the source), revalidate, optionally
learn, and answer 200 with the resulting configuration. -/
def SwitchStatus.set_config (st : SwitchStatus) (body : Option RestConfig) :
    ℕ × List (List Tup) × SwitchStatus × List Msg :=
  match body with
  | none => (400, [], st, [])
  | some cfg =>
    let st := cfg.disused.foldl (fun s t => s.discard_tuple t) st
    let st := cfg.slices.foldl
      (fun s lps =>
        let ps : Finset Tup := (lps.map (fun mp => mp.circuit)).toFinset
        let inr := lps.foldl
          (fun m mp => match mp.inbw with | none => m | some rt => aset m mp.circuit rt) []
        let outr := lps.foldl
          (fun m mp => match mp.outbw with | none => m | some rt => aset m mp.circuit rt) []
        (s.create_slice ps (alookup inr) (alookup outr)).2)
      st
    let r := st.revalidate
    let lr :=
      match cfg.ls with
      | none => (r.1, ([] : List Msg))
      | some l =>
        let lres := r.1.learn l.tup l.mac l.timeout
        (lres.2.1, lres.2.2)
    (200, lr.1.get_config, lr.1, r.2 ++ lr.2)

/-! ### Generic lemmas about state-threading folds -/

theorem foldl_invariant {σ α : Type} (P : σ → Prop) (f : σ → α → σ)
    (hstep : ∀ s a, P s → P (f s a)) :
    ∀ (l : List α) (s : σ), P s → P (l.foldl f s)
  | [], _, hs => hs
  | _ :: l, s, hs => foldl_invariant P f hstep l _ (hstep s _ hs)

theorem mfold_invariant {α : Type} (P : SwitchStatus → Prop)
    (step : SwitchStatus → α → SwitchStatus × List Msg)
    (hstep : ∀ s x, P s → P (step s x).1) :
    ∀ (l : List α) (acc : SwitchStatus × List Msg), P acc.1 → P (mfold step l acc).1
  | [], _, h => h
  | _ :: l, acc, h => mfold_invariant P step hstep l _ (hstep acc.1 _ h)

theorem mfold_split {α : Type} (step : SwitchStatus → α → SwitchStatus × List Msg) :
    ∀ (l : List α) (s : SwitchStatus) (m : List Msg),
      mfold step l (s, m) = ((mfold step l (s, [])).1, m ++ (mfold step l (s, [])).2)
  | [], s, m => by simp [mfold]
  | x :: l, s, m => by
    have h1 := mfold_split step l (step s x).1 (m ++ (step s x).2)
    have h2 := mfold_split step l (step s x).1 (step s x).2
    simp only [mfold, List.foldl_cons, List.nil_append] at *
    rw [h1, h2]
    simp [List.append_assoc]

/-! ### Frame lemmas: which fields each operation leaves untouched -/

theorem iftr_frame (st : SwitchStatus) (t : Tup) :
    (st.invalidate_first_tag_rule t).datapath = st.datapath ∧
    (st.invalidate_first_tag_rule t).invalid_slices = st.invalid_slices ∧
    (st.invalidate_first_tag_rule t).target_index = st.target_index ∧
    (st.invalidate_first_tag_rule t).outmeters = st.outmeters ∧
    (st.invalidate_first_tag_rule t).inmeters = st.inmeters ∧
    (st.invalidate_first_tag_rule t).slices = st.slices ∧
    (st.invalidate_first_tag_rule t).tuple_to_group = st.tuple_to_group := by
  unfold SwitchStatus.invalidate_first_tag_rule
  split <;> exact ⟨rfl, rfl, rfl, rfl, rfl, rfl, rfl⟩

theorem rgbt_frame (st : SwitchStatus) (t : Tup) :
    (st.release_group_by_tuple t).2.datapath = st.datapath ∧
    (st.release_group_by_tuple t).2.invalid_slices = st.invalid_slices ∧
    (st.release_group_by_tuple t).2.target_index = st.target_index ∧
    (st.release_group_by_tuple t).2.outmeters = st.outmeters ∧
    (st.release_group_by_tuple t).2.inmeters = st.inmeters ∧
    (st.release_group_by_tuple t).2.slices = st.slices ∧
    (st.release_group_by_tuple t).2.invalid_first_tag_rules = st.invalid_first_tag_rules := by
  unfold SwitchStatus.release_group_by_tuple
  cases alookup st.tuple_to_group t <;> exact ⟨rfl, rfl, rfl, rfl, rfl, rfl, rfl⟩

theorem cgft_frame (st : SwitchStatus) (t : Tup) :
    (st.claim_group_for_tuple t).2.datapath = st.datapath ∧
    (st.claim_group_for_tuple t).2.invalid_slices = st.invalid_slices ∧
    (st.claim_group_for_tuple t).2.target_index = st.target_index ∧
    (st.claim_group_for_tuple t).2.outmeters = st.outmeters ∧
    (st.claim_group_for_tuple t).2.inmeters = st.inmeters ∧
    (st.claim_group_for_tuple t).2.slices = st.slices ∧
    (st.claim_group_for_tuple t).2.invalid_first_tag_rules = st.invalid_first_tag_rules := by
  unfold SwitchStatus.claim_group_for_tuple
  cases alookup st.tuple_to_group t <;> exact ⟨rfl, rfl, rfl, rfl, rfl, rfl, rfl⟩

theorem setSlice_frame (st : SwitchStatus) (sid : ℕ) (sl : SliceData) :
    (st.setSlice sid sl).datapath = st.datapath ∧
    (st.setSlice sid sl).invalid_slices = st.invalid_slices ∧
    (st.setSlice sid sl).target_index = st.target_index ∧
    (st.setSlice sid sl).outmeters = st.outmeters ∧
    (st.setSlice sid sl).inmeters = st.inmeters ∧
    (st.setSlice sid sl).invalid_first_tag_rules = st.invalid_first_tag_rules ∧
    (st.setSlice sid sl).tuple_to_group = st.tuple_to_group :=
  ⟨rfl, rfl, rfl, rfl, rfl, rfl, rfl⟩

theorem ddr_state (st : SwitchStatus) (t : Tup) :
    (st.delete_dynamic_rules t).1 =
      ((st.invalidate_first_tag_rule t).release_group_by_tuple t).2 := by
  unfold SwitchStatus.delete_dynamic_rules
  rcases h : ((st.invalidate_first_tag_rule t).release_group_by_tuple t).1 with _ | g <;>
    simp [h]

theorem ddr_frame (st : SwitchStatus) (t : Tup) :
    (st.delete_dynamic_rules t).1.datapath = st.datapath ∧
    (st.delete_dynamic_rules t).1.invalid_slices = st.invalid_slices ∧
    (st.delete_dynamic_rules t).1.target_index = st.target_index ∧
    (st.delete_dynamic_rules t).1.outmeters = st.outmeters ∧
    (st.delete_dynamic_rules t).1.inmeters = st.inmeters ∧
    (st.delete_dynamic_rules t).1.slices = st.slices := by
  rw [ddr_state]
  obtain ⟨a1, a2, a3, a4, a5, a6, a7⟩ := iftr_frame st t
  obtain ⟨b1, b2, b3, b4, b5, b6, b7⟩ := rgbt_frame (st.invalidate_first_tag_rule t) t
  exact ⟨b1.trans a1, b2.trans a2, b3.trans a3, b4.trans a4, b5.trans a5, b6.trans a6⟩

theorem dsr_preserve (st : SwitchStatus) (sid : ℕ) (P : SwitchStatus → Prop)
    (h1 : ∀ s t, P s → P (s.invalidate_first_tag_rule t))
    (h2 : ∀ s t, P s → P (s.release_group_by_tuple t).2)
    (hbase : P st) : P (st.delete_static_rules sid).1 := by
  unfold SwitchStatus.delete_static_rules
  dsimp only
  split
  · exact hbase
  · split
    · apply mfold_invariant P _ ?_ _ _ (mfold_invariant P _ (fun s x hp => h1 s x hp) _ _ hbase)
      intro s tup hp
      rcases hrel : (s.release_group_by_tuple tup).1 with _ | g
      · simpa [hrel] using h2 s tup hp
      · simpa [hrel] using h2 s tup hp
    · exact mfold_invariant P _ (fun s x hp => h1 s x hp) _ _ hbase

theorem asr_preserve (st : SwitchStatus) (sid : ℕ) (P : SwitchStatus → Prop)
    (hc : ∀ s t, P s → P (s.claim_group_for_tuple t).2)
    (hbase : P st) : P (st.add_static_rules sid).1 := by
  unfold SwitchStatus.add_static_rules
  dsimp only
  split
  · exact hbase
  · split
    · exact hbase
    · split
      · exact hbase
      · exact mfold_invariant P _ (fun s x hp => hp) _ _
          (mfold_invariant P _ (fun s x hp => hc s x hp) _ _ hbase)

theorem dsr_frame (st : SwitchStatus) (sid : ℕ) :
    (st.delete_static_rules sid).1.datapath = st.datapath ∧
    (st.delete_static_rules sid).1.invalid_slices = st.invalid_slices ∧
    (st.delete_static_rules sid).1.target_index = st.target_index ∧
    (st.delete_static_rules sid).1.outmeters = st.outmeters ∧
    (st.delete_static_rules sid).1.inmeters = st.inmeters ∧
    (st.delete_static_rules sid).1.slices = st.slices := by
  apply dsr_preserve st sid (fun s =>
    s.datapath = st.datapath ∧ s.invalid_slices = st.invalid_slices ∧
    s.target_index = st.target_index ∧ s.outmeters = st.outmeters ∧
    s.inmeters = st.inmeters ∧ s.slices = st.slices)
  · intro s tup hp
    obtain ⟨a1, a2, a3, a4, a5, a6, _⟩ := iftr_frame s tup
    exact ⟨a1.trans hp.1, a2.trans hp.2.1, a3.trans hp.2.2.1, a4.trans hp.2.2.2.1,
      a5.trans hp.2.2.2.2.1, a6.trans hp.2.2.2.2.2⟩
  · intro s tup hp
    obtain ⟨a1, a2, a3, a4, a5, a6, _⟩ := rgbt_frame s tup
    exact ⟨a1.trans hp.1, a2.trans hp.2.1, a3.trans hp.2.2.1, a4.trans hp.2.2.2.1,
      a5.trans hp.2.2.2.2.1, a6.trans hp.2.2.2.2.2⟩
  · exact ⟨rfl, rfl, rfl, rfl, rfl, rfl⟩

theorem asr_frame (st : SwitchStatus) (sid : ℕ) :
    (st.add_static_rules sid).1.datapath = st.datapath ∧
    (st.add_static_rules sid).1.invalid_slices = st.invalid_slices ∧
    (st.add_static_rules sid).1.target_index = st.target_index ∧
    (st.add_static_rules sid).1.outmeters = st.outmeters ∧
    (st.add_static_rules sid).1.inmeters = st.inmeters ∧
    (st.add_static_rules sid).1.slices = st.slices := by
  apply asr_preserve st sid (fun s =>
    s.datapath = st.datapath ∧ s.invalid_slices = st.invalid_slices ∧
    s.target_index = st.target_index ∧ s.outmeters = st.outmeters ∧
    s.inmeters = st.inmeters ∧ s.slices = st.slices)
  · intro s tup hp
    obtain ⟨a1, a2, a3, a4, a5, a6, _⟩ := cgft_frame s tup
    exact ⟨a1.trans hp.1, a2.trans hp.2.1, a3.trans hp.2.2.1, a4.trans hp.2.2.2.1,
      a5.trans hp.2.2.2.2.1, a6.trans hp.2.2.2.2.2⟩
  · exact ⟨rfl, rfl, rfl, rfl, rfl, rfl⟩

theorem sanitize_frame (st : SwitchStatus) (sid : ℕ) :
    (st.sanitize sid).datapath = st.datapath ∧
    (st.sanitize sid).invalid_slices = st.invalid_slices ∧
    (st.sanitize sid).target_index = st.target_index ∧
    (st.sanitize sid).outmeters = st.outmeters ∧
    (st.sanitize sid).inmeters = st.inmeters ∧
    (st.sanitize sid).invalid_first_tag_rules = st.invalid_first_tag_rules ∧
    (st.sanitize sid).tuple_to_group = st.tuple_to_group :=
  ⟨rfl, rfl, rfl, rfl, rfl, rfl, rfl⟩

theorem match_slice_frame (st : SwitchStatus) (sid : ℕ) :
    (st.match_slice sid).datapath = st.datapath ∧
    (st.match_slice sid).invalid_slices = st.invalid_slices ∧
    (st.match_slice sid).target_index = st.target_index ∧
    (st.match_slice sid).outmeters = st.outmeters ∧
    (st.match_slice sid).inmeters = st.inmeters ∧
    (st.match_slice sid).invalid_first_tag_rules = st.invalid_first_tag_rules ∧
    (st.match_slice sid).tuple_to_group = st.tuple_to_group :=
  ⟨rfl, rfl, rfl, rfl, rfl, rfl, rfl⟩

theorem rftr_state (st : SwitchStatus) :
    (st.revalidate_first_tag_rules).1 = { st with invalid_first_tag_rules := ∅ } := rfl

theorem drop_outmeter_frame (st : SwitchStatus) (t : Tup) :
    (st.drop_outmeter t).1.datapath = st.datapath ∧
    (st.drop_outmeter t).1.invalid_slices = st.invalid_slices ∧
    (st.drop_outmeter t).1.target_index = st.target_index ∧
    (st.drop_outmeter t).1.inmeters = st.inmeters ∧
    (st.drop_outmeter t).1.invalid_first_tag_rules = st.invalid_first_tag_rules ∧
    (st.drop_outmeter t).1.slices = st.slices ∧
    (st.drop_outmeter t).1.tuple_to_group = st.tuple_to_group := by
  unfold SwitchStatus.drop_outmeter
  cases alookup st.outmeters t <;> exact ⟨rfl, rfl, rfl, rfl, rfl, rfl, rfl⟩

theorem drop_inmeter_frame (st : SwitchStatus) (t : Tup) :
    (st.drop_inmeter t).1.datapath = st.datapath ∧
    (st.drop_inmeter t).1.invalid_slices = st.invalid_slices ∧
    (st.drop_inmeter t).1.target_index = st.target_index ∧
    (st.drop_inmeter t).1.outmeters = st.outmeters ∧
    (st.drop_inmeter t).1.invalid_first_tag_rules = st.invalid_first_tag_rules ∧
    (st.drop_inmeter t).1.slices = st.slices ∧
    (st.drop_inmeter t).1.tuple_to_group = st.tuple_to_group := by
  unfold SwitchStatus.drop_inmeter
  cases alookup st.inmeters t <;> exact ⟨rfl, rfl, rfl, rfl, rfl, rfl, rfl⟩

/-! ### Key-membership lemmas and the meter sweep -/

theorem mfold_cons {α : Type} (step : SwitchStatus → α → SwitchStatus × List Msg)
    (x : α) (l : List α) (acc : SwitchStatus × List Msg) :
    mfold step (x :: l) acc = mfold step l ((step acc.1 x).1, acc.2 ++ (step acc.1 x).2) := rfl

theorem alookup_eq_none_iff {α β : Type} [DecidableEq α] (l : List (α × β)) (k : α) :
    alookup l k = none ↔ k ∉ l.map Prod.fst := by
  induction l with
  | nil => simp [alookup]
  | cons e r ih =>
    by_cases h : e.1 = k
    · simp [alookup, h]
    · rw [List.map_cons]
      simp only [alookup, h, if_false]
      rw [ih]
      constructor
      · intro hk hmem
        rcases List.mem_cons.mp hmem with h1 | h1
        · exact h h1.symm
        · exact hk h1
      · intro hk h1
        exact hk (List.mem_cons_of_mem _ h1)

theorem aerase_of_alookup_none {α β : Type} [DecidableEq α] (l : List (α × β)) (k : α)
    (h : alookup l k = none) : aerase l k = l := by
  induction l with
  | nil => rfl
  | cons e r ih =>
    simp only [alookup] at h
    by_cases he : e.1 = k
    · simp [he] at h
    · simp only [alookup, he, if_false] at h
      simp [aerase, he, ih h]

theorem drop_outmeter_out (st : SwitchStatus) (t : Tup) :
    (st.drop_outmeter t).1.outmeters = aerase st.outmeters t := by
  unfold SwitchStatus.drop_outmeter
  rcases h : alookup st.outmeters t with _ | m
  · simp only [h]
    exact (aerase_of_alookup_none _ _ h).symm
  · simp [h]

theorem drop_inmeter_in (st : SwitchStatus) (t : Tup) :
    (st.drop_inmeter t).1.inmeters = aerase st.inmeters t := by
  unfold SwitchStatus.drop_inmeter
  rcases h : alookup st.inmeters t with _ | m
  · simp only [h]
    exact (aerase_of_alookup_none _ _ h).symm
  · simp [h]

theorem mfold_dropout_keys :
    ∀ (l : List Tup) (acc : SwitchStatus × List Msg) (t : Tup),
      alookup ((mfold (fun s tup => s.drop_outmeter tup) l acc).1.outmeters) t ≠ none →
      alookup acc.1.outmeters t ≠ none ∧ t ∉ l
  | [], acc, t, h => ⟨h, by simp⟩
  | x :: l, acc, t, h => by
    have ih := mfold_dropout_keys l (((acc.1.drop_outmeter x)).1, acc.2 ++ (acc.1.drop_outmeter x).2) t h
    rw [drop_outmeter_out] at ih
    by_cases hx : t = x
    · subst hx
      rw [alookup_aerase] at ih
      exact absurd rfl ih.1
    · rw [alookup_aerase_ne _ _ _ (fun hh => hx hh.symm)] at ih
      exact ⟨ih.1, by simp [hx, ih.2]⟩

theorem mfold_dropin_keys :
    ∀ (l : List Tup) (acc : SwitchStatus × List Msg) (t : Tup),
      alookup ((mfold (fun s tup => s.drop_inmeter tup) l acc).1.inmeters) t ≠ none →
      alookup acc.1.inmeters t ≠ none ∧ t ∉ l
  | [], acc, t, h => ⟨h, by simp⟩
  | x :: l, acc, t, h => by
    have ih := mfold_dropin_keys l (((acc.1.drop_inmeter x)).1, acc.2 ++ (acc.1.drop_inmeter x).2) t h
    rw [drop_inmeter_in] at ih
    by_cases hx : t = x
    · subst hx
      rw [alookup_aerase] at ih
      exact absurd rfl ih.1
    · rw [alookup_aerase_ne _ _ _ (fun hh => hx hh.symm)] at ih
      exact ⟨ih.1, by simp [hx, ih.2]⟩

theorem meter_sweep_frame (st : SwitchStatus) :
    (st.meter_sweep).1.datapath = st.datapath ∧
    (st.meter_sweep).1.invalid_slices = st.invalid_slices ∧
    (st.meter_sweep).1.target_index = st.target_index ∧
    (st.meter_sweep).1.invalid_first_tag_rules = st.invalid_first_tag_rules ∧
    (st.meter_sweep).1.slices = st.slices ∧
    (st.meter_sweep).1.tuple_to_group = st.tuple_to_group := by
  unfold SwitchStatus.meter_sweep
  dsimp only
  set P : SwitchStatus → Prop := fun s =>
    s.datapath = st.datapath ∧ s.invalid_slices = st.invalid_slices ∧
    s.target_index = st.target_index ∧
    s.invalid_first_tag_rules = st.invalid_first_tag_rules ∧
    s.slices = st.slices ∧ s.tuple_to_group = st.tuple_to_group with hP
  have hout : ∀ (s : SwitchStatus) (t : Tup), P s → P (s.drop_outmeter t).1 := by
    intro s t hp
    obtain ⟨a1, a2, a3, _, a5, a6, a7⟩ := drop_outmeter_frame s t
    exact ⟨a1.trans hp.1, a2.trans hp.2.1, a3.trans hp.2.2.1, a5.trans hp.2.2.2.1,
      a6.trans hp.2.2.2.2.1, a7.trans hp.2.2.2.2.2⟩
  have hin : ∀ (s : SwitchStatus) (t : Tup), P s → P (s.drop_inmeter t).1 := by
    intro s t hp
    obtain ⟨a1, a2, a3, _, a5, a6, a7⟩ := drop_inmeter_frame s t
    exact ⟨a1.trans hp.1, a2.trans hp.2.1, a3.trans hp.2.2.1, a5.trans hp.2.2.2.1,
      a6.trans hp.2.2.2.2.1, a7.trans hp.2.2.2.2.2⟩
  exact mfold_invariant P _ hin _ _ (mfold_invariant P _ hout _ _ ⟨rfl, rfl, rfl, rfl, rfl, rfl⟩)

theorem mem_tsort {s : Finset Tup} {t : Tup} : t ∈ tsort s ↔ t ∈ s :=
  mem_fsort

theorem tsort_empty : tsort ∅ = [] := rfl

theorem mfold_dropin_outmeters (l : List Tup) :
    ∀ acc, (mfold (fun s tup => s.drop_inmeter tup) l acc).1.outmeters = acc.1.outmeters := by
  induction l with
  | nil => intro acc; rfl
  | cons x r ih =>
    intro acc
    rw [mfold_cons, ih]
    exact (drop_inmeter_frame acc.1 x).2.2.2.1

theorem mfold_dropin_index (l : List Tup) :
    ∀ acc, (mfold (fun s tup => s.drop_inmeter tup) l acc).1.target_index =
      acc.1.target_index := by
  induction l with
  | nil => intro acc; rfl
  | cons x r ih =>
    intro acc
    rw [mfold_cons, ih]
    exact (drop_inmeter_frame acc.1 x).2.2.1

theorem mfold_dropout_index (l : List Tup) :
    ∀ acc, (mfold (fun s tup => s.drop_outmeter tup) l acc).1.target_index =
      acc.1.target_index := by
  induction l with
  | nil => intro acc; rfl
  | cons x r ih =>
    intro acc
    rw [mfold_cons, ih]
    exact (drop_outmeter_frame acc.1 x).2.2.1

/-- After the meter sweep, every remaining meter key is in the target index. -/
theorem meter_sweep_coherent (st : SwitchStatus) :
    ((st.meter_sweep).1.outmeters.map Prod.fst).toFinset ⊆
      ((st.meter_sweep).1.target_index.map Prod.fst).toFinset ∧
    ((st.meter_sweep).1.inmeters.map Prod.fst).toFinset ⊆
      ((st.meter_sweep).1.target_index.map Prod.fst).toFinset := by
  unfold SwitchStatus.meter_sweep
  dsimp only
  set SO := tsort ((st.outmeters.map Prod.fst).toFinset \
    (st.target_index.map Prod.fst).toFinset) with hSO
  set A := mfold (fun s tup => s.drop_outmeter tup) SO (st, []) with hA
  set SI := tsort ((A.1.inmeters.map Prod.fst).toFinset \
    (A.1.target_index.map Prod.fst).toFinset) with hSI
  set B := mfold (fun s tup => s.drop_inmeter tup) SI A with hB
  have hBout : B.1.outmeters = A.1.outmeters := by
    rw [hB]; exact mfold_dropin_outmeters SI A
  have hBidx : B.1.target_index = A.1.target_index := by
    rw [hB]; exact mfold_dropin_index SI A
  have hAidx : A.1.target_index = st.target_index := by
    rw [hA]; exact mfold_dropout_index SO (st, [])
  constructor
  · intro t ht
    rw [hBout] at ht
    have ht2 : t ∈ A.1.outmeters.map Prod.fst := List.mem_toFinset.mp ht
    have halu : alookup A.1.outmeters t ≠ none :=
      fun hc => (alookup_eq_none_iff _ _).mp hc ht2
    rw [hA] at halu
    obtain ⟨h1, h2⟩ := mfold_dropout_keys SO (st, []) t halu
    have hkey : t ∈ st.outmeters.map Prod.fst := by
      by_contra hc
      exact h1 ((alookup_eq_none_iff _ _).mpr hc)
    rw [hSO, mem_tsort, Finset.mem_sdiff] at h2
    push_neg at h2
    have hidx := h2 (List.mem_toFinset.mpr hkey)
    rw [hBidx, hAidx]
    exact hidx
  · intro t ht
    have ht2 : t ∈ B.1.inmeters.map Prod.fst := List.mem_toFinset.mp ht
    have halu : alookup B.1.inmeters t ≠ none :=
      fun hc => (alookup_eq_none_iff _ _).mp hc ht2
    rw [hB] at halu
    obtain ⟨h1, h2⟩ := mfold_dropin_keys SI A t halu
    have hkey : t ∈ A.1.inmeters.map Prod.fst := by
      by_contra hc
      exact h1 ((alookup_eq_none_iff _ _).mpr hc)
    rw [hSI, mem_tsort, Finset.mem_sdiff] at h2
    push_neg at h2
    have hidx := h2 (List.mem_toFinset.mpr hkey)
    rw [hBidx]
    exact hidx

/-- A coherent state makes the meter sweep a silent no-op. -/
theorem meter_sweep_of_coherent (st : SwitchStatus)
    (h1 : (st.outmeters.map Prod.fst).toFinset ⊆ (st.target_index.map Prod.fst).toFinset)
    (h2 : (st.inmeters.map Prod.fst).toFinset ⊆ (st.target_index.map Prod.fst).toFinset) :
    st.meter_sweep = (st, []) := by
  unfold SwitchStatus.meter_sweep
  dsimp only
  rw [Finset.sdiff_eq_empty_iff_subset.mpr h1, tsort_empty]
  rw [show mfold (fun s tup => s.drop_outmeter tup) [] (st, []) = (st, []) from rfl]
  rw [Finset.sdiff_eq_empty_iff_subset.mpr h2, tsort_empty]
  rfl

/-! ### Revalidation: state shape after a pass, and idempotence -/

theorem mfold_nil {α : Type} (step : SwitchStatus → α → SwitchStatus × List Msg)
    (acc : SwitchStatus × List Msg) : mfold step [] acc = acc := rfl

set_option maxHeartbeats 2000000 in
/-- Master preservation lemma: any predicate preserved by the primitive
mutations is preserved by a whole revalidation. -/
theorem revalidate_preserve (P : SwitchStatus → Prop) (st : SwitchStatus)
    (hiftr : ∀ s t, P s → P (s.invalidate_first_tag_rule t))
    (hrel : ∀ s t, P s → P (s.release_group_by_tuple t).2)
    (hclaim : ∀ s t, P s → P (s.claim_group_for_tuple t).2)
    (hset : ∀ s sid sl, P s → P (s.setSlice sid sl))
    (hinv : ∀ s, P s → P { s with invalid_slices := ∅ })
    (hftr : ∀ s, P s → P { s with invalid_first_tag_rules := ∅ })
    (hdropo : ∀ s t, P s → P (s.drop_outmeter t).1)
    (hdropi : ∀ s t, P s → P (s.drop_inmeter t).1)
    (hbase : P st) : P (st.revalidate).1 := by
  have hsweep : ∀ s, P s → P (s.meter_sweep).1 := by
    intro s hp
    unfold SwitchStatus.meter_sweep
    dsimp only
    exact mfold_invariant P _ (fun a x h => hdropi a x h) _ _
      (mfold_invariant P _ (fun a x h => hdropo a x h) _ _ hp)
  have hddr : ∀ s t, P s → P (s.delete_dynamic_rules t).1 := by
    intro s t hp
    rw [ddr_state]
    exact hrel _ _ (hiftr _ _ hp)
  unfold SwitchStatus.revalidate
  dsimp only
  split
  · exact hbase
  · apply hsweep
    rw [rftr_state]
    apply hftr
    apply hinv
    apply foldl_invariant P _ (fun s sid hp => hset s sid _ hp)
    apply mfold_invariant P _ (fun s sid hp => asr_preserve s sid P hclaim hp)
    apply mfold_invariant P _ (fun s sid hp => dsr_preserve s sid P hiftr hrel hp)
    show P (List.foldl (fun s sid => s.sanitize sid) _ _)
    apply foldl_invariant P _ (fun s sid hp => hset s sid _ hp)
    apply mfold_invariant P _ (fun s t hp => hddr s t hp)
    exact hbase

theorem revalidate_datapath (st : SwitchStatus) :
    (st.revalidate).1.datapath = st.datapath := by
  apply revalidate_preserve (fun s => s.datapath = st.datapath) st
  · exact fun s t h => ((iftr_frame s t).1).trans h
  · exact fun s t h => ((rgbt_frame s t).1).trans h
  · exact fun s t h => ((cgft_frame s t).1).trans h
  · exact fun s sid sl h => h
  · exact fun s h => h
  · exact fun s h => h
  · exact fun s t h => ((drop_outmeter_frame s t).1).trans h
  · exact fun s t h => ((drop_inmeter_frame s t).1).trans h
  · rfl

theorem revalidate_index (st : SwitchStatus) :
    (st.revalidate).1.target_index = st.target_index := by
  apply revalidate_preserve (fun s => s.target_index = st.target_index) st
  · exact fun s t h => ((iftr_frame s t).2.2.1).trans h
  · exact fun s t h => ((rgbt_frame s t).2.2.1).trans h
  · exact fun s t h => ((cgft_frame s t).2.2.1).trans h
  · exact fun s sid sl h => h
  · exact fun s h => h
  · exact fun s h => h
  · exact fun s t h => ((drop_outmeter_frame s t).2.2.1).trans h
  · exact fun s t h => ((drop_inmeter_frame s t).2.2.1).trans h
  · rfl

set_option maxHeartbeats 2000000 in
theorem revalidate_invalid (st : SwitchStatus) (hdp : st.datapath = true) :
    (st.revalidate).1.invalid_slices = ∅ := by
  unfold SwitchStatus.revalidate
  dsimp only
  rw [if_neg (by simp [hdp])]
  have hX : ∀ (s : SwitchStatus), s.invalid_slices = ∅ →
      (s.meter_sweep).1.invalid_slices = ∅ :=
    fun s h => ((meter_sweep_frame s).2.1).trans h
  apply hX
  rw [rftr_state]

set_option maxHeartbeats 2000000 in
theorem revalidate_ftr (st : SwitchStatus) (hdp : st.datapath = true) :
    (st.revalidate).1.invalid_first_tag_rules = ∅ := by
  unfold SwitchStatus.revalidate
  dsimp only
  rw [if_neg (by simp [hdp])]
  have hX : ∀ (s : SwitchStatus), s.invalid_first_tag_rules = ∅ →
      (s.meter_sweep).1.invalid_first_tag_rules = ∅ :=
    fun s h => ((meter_sweep_frame s).2.2.2.1).trans h
  apply hX
  rw [rftr_state]

set_option maxHeartbeats 2000000 in
theorem revalidate_meters (st : SwitchStatus) (hdp : st.datapath = true) :
    ((st.revalidate).1.outmeters.map Prod.fst).toFinset ⊆
      ((st.revalidate).1.target_index.map Prod.fst).toFinset ∧
    ((st.revalidate).1.inmeters.map Prod.fst).toFinset ⊆
      ((st.revalidate).1.target_index.map Prod.fst).toFinset := by
  unfold SwitchStatus.revalidate
  dsimp only
  rw [if_neg (by simp [hdp])]
  exact meter_sweep_coherent _

theorem rftr_of_empty (st : SwitchStatus) (h : st.invalid_first_tag_rules = ∅) :
    st.revalidate_first_tag_rules = ({ st with invalid_first_tag_rules := ∅ }, []) := by
  have hinner : ∀ (l : List Tup),
      l.foldl (fun (a : Finset Tup) tup => a.erase (tup.take 2)) ∅ = ∅ := by
    intro l
    induction l with
    | nil => rfl
    | cons x r ih => simpa [Finset.erase_empty] using ih
  have hrem : ∀ (sids : List ℕ),
      sids.foldl (fun (acc : Finset Tup) sid =>
        (tsort (st.getSlice sid).target).foldl (fun a tup => a.erase (tup.take 2)) acc) ∅ = ∅ := by
    intro sids
    induction sids with
    | nil => rfl
    | cons x r ih => simpa [hinner] using ih
  unfold SwitchStatus.revalidate_first_tag_rules
  dsimp only
  rw [h, hrem, tsort_empty]
  rfl

set_option maxHeartbeats 2000000 in
/-- C3: pipeline idempotence.  With a datapath attached, running revalidate
and then running it again with no intervening mutation makes the second run
emit no OpenFlow messages at all. -/
theorem C3_revalidate_idempotent (st : SwitchStatus) (hdp : st.datapath = true) :
    (SwitchStatus.revalidate (st.revalidate).1).2 = [] := by
  have h1 : (st.revalidate).1.datapath = true := (revalidate_datapath st).trans hdp
  have h2 := revalidate_invalid st hdp
  have h3 := revalidate_ftr st hdp
  obtain ⟨h4, h5⟩ := revalidate_meters st hdp
  set st1 := (st.revalidate).1 with hst1
  unfold SwitchStatus.revalidate
  dsimp only
  rw [if_neg (by simp [h1])]
  rw [h2, fsort_empty]
  simp only [List.foldl_nil, mfold_nil, tsort_empty]
  rw [rftr_of_empty _ (by exact h3)]
  dsimp only
  rw [meter_sweep_of_coherent _ (by exact h4) (by exact h5)]
  rfl

/-- Witness for C3 at a concrete attached switch with one pending slice. -/
theorem C3_revalidate_idempotent_witness :
    (SwitchStatus.revalidate
      ((((SwitchStatus.init.set_datapath true).port_added 1).port_added 2).revalidate).1).2
      = [] :=
  C3_revalidate_idempotent _ rfl

/-! ### The deletion-phase stale set (C4) -/

theorem mfold_delIngress_mem (step : SwitchStatus → Tup → SwitchStatus × List Msg)
    (f : SwitchStatus → Tup → Option ℕ)
    (hstep : ∀ s tup, (step s tup).2 = [Msg.delIngress tup (f s tup)]) :
    ∀ (l : List Tup) (acc : SwitchStatus × List Msg) (t : Tup),
      ((∃ c, Msg.delIngress t c ∈ (mfold step l acc).2) ↔
        ((∃ c, Msg.delIngress t c ∈ acc.2) ∨ t ∈ l))
  | [], acc, t => by rw [mfold_nil]; simp
  | x :: r, acc, t => by
    rw [mfold_cons, mfold_delIngress_mem step f hstep r _ t]
    rw [hstep]
    constructor
    · rintro (⟨c, hc⟩ | ht)
      · rcases List.mem_append.mp hc with h1 | h1
        · exact Or.inl ⟨c, h1⟩
        · have := List.mem_singleton.mp h1
          have ht : t = x := by
            injection this with hx _
          exact Or.inr (List.mem_cons.mpr (Or.inl ht))
      · exact Or.inr (List.mem_cons.mpr (Or.inr ht))
    · rintro (⟨c, hc⟩ | ht)
      · exact Or.inl ⟨c, List.mem_append.mpr (Or.inl hc)⟩
      · rcases List.mem_cons.mp ht with h1 | h1
        · subst h1
          exact Or.inl ⟨f acc.1 t, List.mem_append.mpr (Or.inr (List.mem_singleton.mpr rfl))⟩
        · exact Or.inr h1

theorem mfold_no_delIngress (step : SwitchStatus → Tup → SwitchStatus × List Msg)
    (hstep : ∀ s x c t, Msg.delIngress t c ∉ (step s x).2) :
    ∀ (l : List Tup) (acc : SwitchStatus × List Msg) (t : Tup),
      ((∃ c, Msg.delIngress t c ∈ (mfold step l acc).2) ↔ (∃ c, Msg.delIngress t c ∈ acc.2))
  | [], acc, t => Iff.rfl
  | x :: r, acc, t => by
    rw [mfold_cons, mfold_no_delIngress step hstep r _ t]
    constructor
    · rintro ⟨c, hc⟩
      rcases List.mem_append.mp hc with h1 | h1
      · exact ⟨c, h1⟩
      · exact absurd h1 (hstep acc.1 x c t)
    · rintro ⟨c, hc⟩
      exact ⟨c, List.mem_append.mpr (Or.inl hc)⟩

/-- C4: when the deletion phase runs (sanitized differs from established),
the set of endpoints whose ingress rules it deletes is exactly: all of
established when established has two members; otherwise all of established
when sanitized has at most two; otherwise established minus sanitized. -/
theorem C4_deletion_stale_set (st : SwitchStatus) (sid : ℕ)
    (hrun : (st.getSlice sid).sanitized ≠ (st.getSlice sid).established) :
    ∀ t : Tup,
      (∃ c, Msg.delIngress t c ∈ (st.delete_static_rules sid).2) ↔
      t ∈ (if (st.getSlice sid).established.card = 2 then (st.getSlice sid).established
           else if (st.getSlice sid).sanitized.card ≤ 2 then (st.getSlice sid).established
           else (st.getSlice sid).established \ (st.getSlice sid).sanitized) := by
  intro t
  unfold SwitchStatus.delete_static_rules
  dsimp only
  rw [if_neg hrun]
  split
  · refine Iff.trans (mfold_no_delIngress _ ?_ _ _ t) ?_
    · intro s x c tt
      rcases h : (s.release_group_by_tuple x).1 with _ | g <;> simp [h]
    · refine Iff.trans (mfold_delIngress_mem _
        (fun s tup => (s.invalidate_first_tag_rule tup).get_group_for_tuple tup)
        (fun s tup => rfl) _ _ t) ?_
      simp [mem_tsort]
  · refine Iff.trans (mfold_delIngress_mem _
      (fun s tup => (s.invalidate_first_tag_rule tup).get_group_for_tuple tup)
      (fun s tup => rfl) _ _ t) ?_
    simp [mem_tsort]

/-- Witness for C4 at a concrete slice losing both endpoints of an E-Line. -/
theorem C4_deletion_stale_set_witness :
    (∃ c, Msg.delIngress [1] c ∈
      (SwitchStatus.delete_static_rules
        { SwitchStatus.init with
            slices := [⟨{[1], [2]}, {[1], [2]}, [], ∅⟩] } 0).2) ↔
    ([1] : Tup) ∈
      (if ({[1], [2]} : Finset Tup).card = 2 then ({[1], [2]} : Finset Tup)
       else if (∅ : Finset Tup).card ≤ 2 then ({[1], [2]} : Finset Tup)
       else ({[1], [2]} : Finset Tup) \ (∅ : Finset Tup)) := by
  have h := C4_deletion_stale_set
    { SwitchStatus.init with slices := [⟨{[1], [2]}, {[1], [2]}, [], ∅⟩] } 0
    (by decide) [1]
  exact h

/-! ### C6: packet-in on an unowned endpoint -/

/-- A freshly attached switch with no slices. -/
def unownedState : SwitchStatus := SwitchStatus.init.set_datapath true

set_option maxRecDepth 100000 in
/-- C6: a packet-in whose reconstructed ingress endpoint belongs to no slice
does not complete silently: `_learn` returns `None` and the handler's
unguarded `slize.lookup(dmac)` raises `AttributeError`.  The handler emits
nothing (in particular no packet-out and no flow-mod) and leaves the state
unchanged, but it crashes rather than dropping the packet. -/
theorem C6_packet_in_unowned :
    (unownedState.packet_in_handler 0 9 0 none 1 2).crashed = true ∧
    (unownedState.packet_in_handler 0 9 0 none 1 2).msgs = [] ∧
    (unownedState.packet_in_handler 0 9 0 none 1 2).state = unownedState := by
  decide

/-! ### C2: group accounting -/

/-- Scenario state for C2: attach, learn ports 1-4, create the slice
`{(1),(2),(3),(4)}`, revalidate, lose port 4, revalidate again. -/
def c2state : SwitchStatus :=
  ((((((((SwitchStatus.init.set_datapath true).port_added 1).port_added 2).port_added
      3).port_added 4).create_slice {[1], [2], [3], [4]}
        (fun _ => none) (fun _ => none)).2.revalidate).1.port_removed 4).revalidate.1

set_option maxRecDepth 100000 in
/-- Counterexample to C2 as stated: after the port loss shrinks the slice's
sanitized set to `{(1),(2),(3)}` (still multi-endpoint) and revalidation
completes, the lost endpoint `(4)` still holds an allocated group ID even
though it lies outside every slice's sanitized set, so it is false that no
endpoint outside the sanitized sets holds a group. -/
theorem C2_group_accounting_counterexample :
    3 ≤ (c2state.getSlice 0).sanitized.card ∧
    c2state.slices.length = 1 ∧
    c2state.invalid_slices = ∅ ∧
    ([4] : Tup) ∉ (c2state.getSlice 0).sanitized ∧
    alookup c2state.tuple_to_group [4] ≠ none := by
  decide

/-- The same scenario stopped just before the second revalidation: slice 0 is
invalid with target `{(1),(2),(3),(4)}` established, and port 4 has gone. -/
def c2pre : SwitchStatus :=
  (((((((SwitchStatus.init.set_datapath true).port_added 1).port_added 2).port_added
      3).port_added 4).create_slice {[1], [2], [3], [4]}
        (fun _ => none) (fun _ => none)).2.revalidate).1.port_removed 4

theorem fsort_singleton {α : Type} [LinearOrder α] (a : α) : fsort {a} = [a] := by
  rcases hm : ({a} : Finset α).min with _ | m
  · rw [Finset.min_singleton] at hm
    exact Option.noConfusion hm
  · have ha : m = a := by
      rw [Finset.min_singleton] at hm
      injection hm.symm
    subst ha
    rw [fsort, Finset.card_singleton]
    unfold fsortAux
    rw [hm]
    simp [fsortAux, Finset.erase_singleton]

theorem getSlice_default (st : SwitchStatus) (sid : ℕ) (h : st.slices.length ≤ sid) :
    st.getSlice sid = ⟨∅, ∅, [], ∅⟩ := by
  unfold SwitchStatus.getSlice
  exact List.getD_eq_default _ _ h

theorem getSlice_setSlice_self (st : SwitchStatus) (sid : ℕ) (sl : SliceData)
    (h : sid < st.slices.length) : (st.setSlice sid sl).getSlice sid = sl := by
  unfold SwitchStatus.getSlice SwitchStatus.setSlice
  dsimp only
  rw [List.getD_eq_getElem?_getD, List.getElem?_set_self]
  · rfl
  · simpa using h

theorem sanitize_getSlice (st : SwitchStatus) (sid : ℕ) (h : sid < st.slices.length) :
    (st.sanitize sid).getSlice sid =
      { st.getSlice sid with
          sanitized := (st.getSlice sid).target.filter
            (fun tup => tup.getD 0 0 ∈ st.known_ports) } :=
  getSlice_setSlice_self st sid _ h

theorem cgft_ttg_mono (st : SwitchStatus) (x t : Tup)
    (h : alookup st.tuple_to_group t ≠ none) :
    alookup (st.claim_group_for_tuple x).2.tuple_to_group t ≠ none := by
  rcases hx : alookup st.tuple_to_group x with _ | g
  · unfold SwitchStatus.claim_group_for_tuple
    rw [hx]
    dsimp only
    by_cases hxt : x = t
    · subst hxt
      rw [alookup_aset]
      simp
    · rw [alookup_aset_ne _ _ _ _ hxt]
      exact h
  · unfold SwitchStatus.claim_group_for_tuple
    rw [hx]
    exact h

theorem cgft_ttg_self (st : SwitchStatus) (x : Tup) :
    alookup (st.claim_group_for_tuple x).2.tuple_to_group x ≠ none := by
  rcases hx : alookup st.tuple_to_group x with _ | g
  · unfold SwitchStatus.claim_group_for_tuple
    rw [hx]
    dsimp only
    rw [alookup_aset]
    simp
  · unfold SwitchStatus.claim_group_for_tuple
    rw [hx]
    dsimp only
    rw [hx]
    simp

theorem dsr_ttg (st : SwitchStatus) (sid : ℕ)
    (h : ¬ ((st.getSlice sid).sanitized.card ≤ 2 ∧ (st.getSlice sid).established.card > 2)) :
    (st.delete_static_rules sid).1.tuple_to_group = st.tuple_to_group := by
  unfold SwitchStatus.delete_static_rules
  dsimp only
  by_cases h1 : (st.getSlice sid).sanitized = (st.getSlice sid).established
  · rw [if_pos h1]
  · rw [if_neg h1, if_neg h]
    exact mfold_invariant (fun s => s.tuple_to_group = st.tuple_to_group) _
      (fun s x hp => ((iftr_frame s x).2.2.2.2.2.2).trans hp) _ _ rfl

theorem asr_ttg_mono (st : SwitchStatus) (sid : ℕ) (t : Tup)
    (h : alookup st.tuple_to_group t ≠ none) :
    alookup (st.add_static_rules sid).1.tuple_to_group t ≠ none := by
  unfold SwitchStatus.add_static_rules
  dsimp only
  split
  · exact h
  · split
    · exact h
    · split
      · exact h
      · refine mfold_invariant (fun s => alookup s.tuple_to_group t ≠ none) _
          (fun s x hp => hp) _ _ ?_
        exact mfold_invariant _ _ (fun s x hp => cgft_ttg_mono s x t hp) _ _ h

theorem mfold_claim_cover (step : SwitchStatus → Tup → SwitchStatus × List Msg)
    (hmono : ∀ s x t, alookup s.tuple_to_group t ≠ none →
      alookup (step s x).1.tuple_to_group t ≠ none)
    (hself : ∀ s x, alookup (step s x).1.tuple_to_group x ≠ none) :
    ∀ (l : List Tup) (acc : SwitchStatus × List Msg) (t : Tup), t ∈ l →
      alookup ((mfold step l acc).1.tuple_to_group) t ≠ none
  | [], _, _, ht => absurd ht (List.not_mem_nil _)
  | x :: r, acc, t, ht => by
    rw [mfold_cons]
    rcases List.mem_cons.mp ht with h1 | h1
    · subst h1
      exact mfold_invariant (fun s => alookup s.tuple_to_group t ≠ none) step
        (fun s y hp => hmono s y t hp) r _ (hself acc.1 t)
    · exact mfold_claim_cover step hmono hself r _ t h1

theorem asr_ttg_cover (st : SwitchStatus) (sid : ℕ)
    (hne : (st.getSlice sid).sanitized ≠ (st.getSlice sid).established)
    (hcard : 3 ≤ (st.getSlice sid).sanitized.card) :
    ∀ t ∈ (st.getSlice sid).sanitized,
      alookup (st.add_static_rules sid).1.tuple_to_group t ≠ none := by
  intro t ht
  unfold SwitchStatus.add_static_rules
  dsimp only
  rw [if_neg hne, if_neg (by omega), if_neg (by omega)]
  refine mfold_invariant (fun s => alookup s.tuple_to_group t ≠ none) _
    (fun s x hp => hp) _ _ ?_
  refine mfold_claim_cover _ ?_ ?_ _ _ t (mem_tsort.mpr ht)
  · intro s x tt hp
    exact cgft_ttg_mono s x tt hp
  · intro s x
    exact cgft_ttg_self s x

set_option maxHeartbeats 2000000 in
/-- With exactly one invalid slice that has lost no target tuples, a
revalidation reduces to sanitize, delete, add, commit on that slice followed
by the first-tag GC (which only clears the candidate set) and the meter
sweep. -/
theorem revalidate_single (st : SwitchStatus) (sid : ℕ)
    (hdp : st.datapath = true) (hinv : st.invalid_slices = {sid})
    (hres : (st.getSlice sid).established \ (st.getSlice sid).target = ∅) :
    (st.revalidate).1 =
      (SwitchStatus.meter_sweep
        { { ((((st.sanitize sid).delete_static_rules sid).1.add_static_rules
              sid).1.match_slice sid) with
            invalid_slices := ∅ } with invalid_first_tag_rules := ∅ }).1 := by
  unfold SwitchStatus.revalidate
  dsimp only
  rw [if_neg (by simp [hdp])]
  rw [hinv, fsort_singleton]
  simp only [List.foldl_cons, List.foldl_nil, mfold_cons, mfold_nil]
  rw [Finset.empty_union, hres, tsort_empty]
  simp only [mfold_nil]
  rw [rftr_state]

set_option maxHeartbeats 2000000 in
/-- C2 (amended): in the port-loss scenario — a single invalid slice whose
established set equals its target (each member holding a group), and whose
new sanitized set still has at least three endpoints — after revalidation
every endpoint of the sanitized set holds a group ID, and every previously
established endpoint (including the ones that just left the sanitized set)
STILL holds its group ID: groups are only released on multi-to-small
transitions, so a multi-to-multi shrink retains the lost endpoints' groups. -/
theorem C2_group_accounting_amended (st : SwitchStatus) (sid : ℕ)
    (hdp : st.datapath = true)
    (hinv : st.invalid_slices = {sid})
    (hte : (st.getSlice sid).established = (st.getSlice sid).target)
    (hgroups : ∀ t ∈ (st.getSlice sid).established, alookup st.tuple_to_group t ≠ none)
    (hcard : 3 ≤ ((st.getSlice sid).target.filter
        (fun tup => tup.getD 0 0 ∈ st.known_ports)).card) :
    (∀ t ∈ (st.getSlice sid).target.filter (fun tup => tup.getD 0 0 ∈ st.known_ports),
        alookup (st.revalidate).1.tuple_to_group t ≠ none) ∧
    (∀ t ∈ (st.getSlice sid).established,
        alookup (st.revalidate).1.tuple_to_group t ≠ none) := by
  have hlt : sid < st.slices.length := by
    by_contra hcon
    push_neg at hcon
    rw [getSlice_default st sid hcon] at hcard
    simp at hcard
  rw [revalidate_single st sid hdp hinv (by rw [hte, Finset.sdiff_self])]
  set st1 := st.sanitize sid with hst1
  set b := (st1.delete_static_rules sid).1 with hb
  set c := (b.add_static_rules sid).1 with hc2
  have hfin : (SwitchStatus.meter_sweep
      { { (c.match_slice sid) with invalid_slices := ∅ } with
          invalid_first_tag_rules := ∅ }).1.tuple_to_group = c.tuple_to_group := by
    rw [(meter_sweep_frame _).2.2.2.2.2]
    rfl
  rw [hfin]
  have hsl1 : st1.getSlice sid =
      { st.getSlice sid with
          sanitized := (st.getSlice sid).target.filter
            (fun tup => tup.getD 0 0 ∈ st.known_ports) } :=
    sanitize_getSlice st sid hlt
  have hbsl : b.getSlice sid = st1.getSlice sid := by
    unfold SwitchStatus.getSlice
    rw [hb, (dsr_frame st1 sid).2.2.2.2.2]
  have httg1 : st1.tuple_to_group = st.tuple_to_group := rfl
  have hguard : ¬ ((st1.getSlice sid).sanitized.card ≤ 2 ∧
      (st1.getSlice sid).established.card > 2) := by
    rintro ⟨hle, _⟩
    rw [hsl1] at hle
    dsimp only at hle
    omega
  have httg_b : b.tuple_to_group = st.tuple_to_group :=
    (dsr_ttg st1 sid hguard).trans httg1
  by_cases hcase : (b.getSlice sid).sanitized = (b.getSlice sid).established
  · have hSest : (st.getSlice sid).target.filter (fun tup => tup.getD 0 0 ∈ st.known_ports)
        = (st.getSlice sid).established := by
      rw [hbsl, hsl1] at hcase
      dsimp only at hcase
      exact hcase
    have hcttg : c.tuple_to_group = b.tuple_to_group := by
      rw [hc2]
      unfold SwitchStatus.add_static_rules
      dsimp only
      rw [if_pos hcase]
    constructor
    · intro t ht
      rw [hcttg, httg_b]
      exact hgroups t (hSest ▸ ht)
    · intro t ht
      rw [hcttg, httg_b]
      exact hgroups t ht
  · have hcard_b : 3 ≤ (b.getSlice sid).sanitized.card := by
      rw [hbsl, hsl1]
      exact hcard
    constructor
    · intro t ht
      rw [hc2]
      apply asr_ttg_cover b sid hcase hcard_b
      rw [hbsl, hsl1]
      exact ht
    · intro t ht
      rw [hc2]
      apply asr_ttg_mono
      rw [httg_b]
      exact hgroups t ht

/-- An attached switch with no slices, for the REST-facade scenarios. -/
def c5state : SwitchStatus := SwitchStatus.init.set_datapath true

/-- A well-formed POST body whose single slice spec holds the invalid
endpoint `(-1)` (negative port). -/
def c5cfg : RestConfig := ⟨[], [[⟨[-1], none, none⟩]], none⟩

set_option maxRecDepth 100000 in
/-- Counterexample to C5 as stated: a parseable POST body that requests an
invalid slice (endpoint `(-1)` has a negative component) is answered with
status 200, not 400 — `set_config` ignores `create_slice`'s `None` — even
though the state is indeed unchanged. -/
theorem C5_bad_config_counterexample :
    (c5state.set_config (some c5cfg)).1 = 200 ∧
    (c5state.set_config (some c5cfg)).1 ≠ 400 ∧
    (c5state.set_config (some c5cfg)).2.2.1 = c5state := by
  decide

/-- C5 (amended): an invalid creation request (bad arity, negative
component, or an intra-request conflict, i.e. `requestValid` fails) makes
`create_slice` return `None` with the switch state completely unchanged — no
partial mutation of targets, index, allocators or meters; but the condition
is NOT surfaced to the REST caller as 400: `set_config` answers 400 only for
an unparseable body, and answers 200 for every parseable one. -/
theorem C5_bad_config (st : SwitchStatus) (tups : Finset Tup)
    (inrates outrates : Tup → Option ℕ)
    (h : requestValid tups = false) :
    st.create_slice tups inrates outrates = (none, st) ∧
    (∀ body : RestConfig, (st.set_config (some body)).1 = 200) ∧
    (st.set_config none).1 = 400 := by
  refine ⟨?_, fun body => rfl, rfl⟩
  unfold SwitchStatus.create_slice
  by_cases he : tups = ∅
  · rw [if_pos he]
  · rw [if_neg he, if_pos (by simp [h])]

set_option maxRecDepth 100000 in
/-- Witness: the amended C5 theorem at the concrete invalid request
`{(-1)}` against an attached empty switch. -/
theorem C5_bad_config_witness :
    c5state.create_slice {[-1]} (fun _ => none) (fun _ => none) = (none, c5state) ∧
    (∀ body : RestConfig, (c5state.set_config (some body)).1 = 200) ∧
    (c5state.set_config none).1 = 400 :=
  C5_bad_config c5state {[-1]} (fun _ => none) (fun _ => none) (by decide)

/-- Scenario for C9: attach, learn port 1, create the singleton slice
`{(1)}`, then revalidate. -/
def c9state : SwitchStatus :=
  ((((SwitchStatus.init.set_datapath true).port_added 1).create_slice {[1]}
      (fun _ => none) (fun _ => none)).2.revalidate).1

set_option maxRecDepth 100000 in
/-- Counterexample to C9 as stated: after a revalidation completes, slice 0
holds one endpoint (so |target| ≤ 1) yet `(1)` is still mapped to it in the
endpoint-to-slice index — the tuple slicer's revalidation has no empty-slice
garbage collection. -/
theorem C9_empty_slice_gc_counterexample :
    (c9state.getSlice 0).target.card ≤ 1 ∧
    alookup c9state.target_index [1] = some 0 ∧
    c9state.target_index ≠ [] := by
  decide

/-- C9 (amended): the tuple slicer's revalidation never changes the
endpoint-to-slice index at all — the empty-slice garbage-collection loop
exists only in the port slicer — so every index entry (in particular one of
a slice with |target| ≤ 1) survives revalidate unchanged. -/
theorem C9_empty_slice_gc (st : SwitchStatus) :
    (st.revalidate).1.target_index = st.target_index ∧
    ∀ t sid, alookup st.target_index t = some sid →
      alookup (st.revalidate).1.target_index t = some sid :=
  ⟨revalidate_index st, fun t sid h => by rw [revalidate_index st]; exact h⟩

set_option maxRecDepth 100000 in
/-- Witness: the amended C2 theorem applied to the concrete port-loss
scenario (slice `{(1),(2),(3),(4)}` established, port 4 lost). -/
theorem C2_group_accounting_amended_witness :
    (∀ t ∈ (c2pre.getSlice 0).target.filter
        (fun tup => tup.getD 0 0 ∈ c2pre.known_ports),
      alookup (c2pre.revalidate).1.tuple_to_group t ≠ none) ∧
    (∀ t ∈ (c2pre.getSlice 0).established,
      alookup (c2pre.revalidate).1.tuple_to_group t ≠ none) :=
  C2_group_accounting_amended c2pre 0 (by decide) (by decide) (by decide)
    (by decide) (by decide)

/-! ### Membership lemmas for association lists -/

theorem mem_aerase {α β : Type} [DecidableEq α] (l : List (α × β)) (k : α) (e : α × β) :
    e ∈ aerase l k ↔ e ∈ l ∧ e.1 ≠ k := by
  induction l with
  | nil => simp [aerase]
  | cons x r ih =>
    by_cases h : x.1 = k
    · simp only [aerase, if_pos h, ih, List.mem_cons]
      constructor
      · rintro ⟨h1, h2⟩
        exact ⟨Or.inr h1, h2⟩
      · rintro ⟨rfl | h1, h2⟩
        · exact absurd h h2
        · exact ⟨h1, h2⟩
    · simp only [aerase, if_neg h, List.mem_cons, ih]
      constructor
      · rintro (rfl | ⟨h1, h2⟩)
        · exact ⟨Or.inl rfl, h⟩
        · exact ⟨Or.inr h1, h2⟩
      · rintro ⟨rfl | h1, h2⟩
        · exact Or.inl rfl
        · exact Or.inr ⟨h1, h2⟩

theorem aerase_sublist {α β : Type} [DecidableEq α] (l : List (α × β)) (k : α) :
    List.Sublist (aerase l k) l := by
  induction l with
  | nil => exact List.Sublist.refl _
  | cons x r ih =>
    simp only [aerase]
    by_cases h : x.1 = k
    · rw [if_pos h]
      exact List.Sublist.cons x ih
    · rw [if_neg h]
      exact List.Sublist.cons₂ x ih

theorem akeys_nodup_aerase {α β : Type} [DecidableEq α] (l : List (α × β)) (k : α)
    (h : (akeys l).Nodup) : (akeys (aerase l k)).Nodup :=
  List.Nodup.sublist (List.Sublist.map Prod.fst (aerase_sublist l k)) h

theorem akeys_mem_aerase {α β : Type} [DecidableEq α] (l : List (α × β)) (k k' : α) :
    k' ∈ akeys (aerase l k) ↔ k' ∈ akeys l ∧ k' ≠ k := by
  simp only [akeys, List.mem_map]
  constructor
  · rintro ⟨e, he, rfl⟩
    obtain ⟨h1, h2⟩ := (mem_aerase l k e).mp he
    exact ⟨⟨e, h1, rfl⟩, h2⟩
  · rintro ⟨⟨e, he, rfl⟩, h2⟩
    exact ⟨e, (mem_aerase l k e).mpr ⟨he, h2⟩, rfl⟩

theorem alookup_mem {α β : Type} [DecidableEq α] (l : List (α × β)) (k : α) (v : β)
    (h : alookup l k = some v) : (k, v) ∈ l := by
  induction l with
  | nil => exact Option.noConfusion h
  | cons e r ih =>
    by_cases he : e.1 = k
    · simp only [alookup, if_pos he] at h
      injection h with hv
      have hkv : (k, v) = e := by rw [← he, ← hv]
      rw [hkv]
      exact List.mem_cons_self e r
    · simp only [alookup, if_neg he] at h
      exact List.mem_cons_of_mem _ (ih h)

theorem mem_alookup {α β : Type} [DecidableEq α] (l : List (α × β))
    (hnd : (akeys l).Nodup) (k : α) (v : β) (h : (k, v) ∈ l) :
    alookup l k = some v := by
  induction l with
  | nil => cases h
  | cons e r ih =>
    simp only [akeys, List.map_cons, List.nodup_cons] at hnd
    rcases List.mem_cons.mp h with rfl | hm
    · simp [alookup]
    · have hne : e.1 ≠ k := by
        intro hek
        exact hnd.1 (List.mem_map.mpr ⟨(k, v), hm, hek.symm⟩)
      simpa [alookup, hne] using ih hnd.2 hm

theorem mem_aset {α β : Type} [DecidableEq α] (l : List (α × β)) (k : α) (v : β)
    (e : α × β) : e ∈ aset l k v ↔ (e ∈ l ∧ e.1 ≠ k) ∨ e = (k, v) := by
  simp [aset, List.mem_append, mem_aerase]

theorem akeys_nodup_aset {α β : Type} [DecidableEq α] (l : List (α × β)) (k : α) (v : β)
    (h : (akeys l).Nodup) : (akeys (aset l k v)).Nodup := by
  simp only [aset, akeys, List.map_append, List.map_cons, List.map_nil]
  rw [List.nodup_append]
  refine ⟨akeys_nodup_aerase l k h, List.nodup_singleton k, ?_⟩
  intro x hx hxk
  rw [List.mem_singleton] at hxk
  exact ((akeys_mem_aerase l k x).mp hx).2 hxk

/-! ### Slice-arena access lemmas -/

theorem getSlice_setSlice_ne (st : SwitchStatus) (sid s : ℕ) (sl : SliceData)
    (h : s ≠ sid) : (st.setSlice sid sl).getSlice s = st.getSlice s := by
  unfold SwitchStatus.getSlice SwitchStatus.setSlice
  dsimp only
  rw [List.getD_eq_getElem?_getD, List.getElem?_set_ne (Ne.symm h),
    ← List.getD_eq_getElem?_getD]

theorem setSlice_length (st : SwitchStatus) (sid : ℕ) (sl : SliceData) :
    (st.setSlice sid sl).slices.length = st.slices.length :=
  List.length_set st.slices sid sl

theorem newSlice_fst (st : SwitchStatus) : (st.newSlice).1 = st.slices.length := rfl

theorem newSlice_length (st : SwitchStatus) :
    (st.newSlice).2.slices.length = st.slices.length + 1 := by
  unfold SwitchStatus.newSlice
  simp

theorem newSlice_index (st : SwitchStatus) :
    (st.newSlice).2.target_index = st.target_index := rfl

theorem getSlice_newSlice (st : SwitchStatus) (s : ℕ) :
    (st.newSlice).2.getSlice s =
      if s < st.slices.length then st.getSlice s else ⟨∅, ∅, [], ∅⟩ := by
  unfold SwitchStatus.getSlice SwitchStatus.newSlice
  dsimp only
  by_cases h : s < st.slices.length
  · rw [if_pos h, List.getD_append _ _ _ _ h]
  · rw [if_neg h]
    rcases Nat.lt_or_ge st.slices.length s with h2 | h2
    · apply List.getD_eq_default
      simp only [List.length_append, List.length_cons, List.length_nil]
      omega
    · have hs : s = st.slices.length := by omega
      subst hs
      rw [List.getD_eq_getElem?_getD, List.getElem?_append_right (le_refl _)]
      simp

theorem getSlice_newSlice_target (st : SwitchStatus) (s : ℕ) :
    ((st.newSlice).2.getSlice s).target = (st.getSlice s).target := by
  rw [getSlice_newSlice]
  by_cases h : s < st.slices.length
  · rw [if_pos h]
  · rw [if_neg h, getSlice_default st s (by omega)]

/-! ### The index-target coherence invariant -/

/-- Coherence of the endpoint-to-slice index with the slice arena: index keys
are unique; every entry points into the arena and its key lies in that
slice's target; every target member is indexed back to its slice; and two
distinct indexed endpoints never conflict.  `create_slice` maintains this
from the empty initial state. -/
def goodIndex (st : SwitchStatus) : Prop :=
  (akeys st.target_index).Nodup ∧
  (∀ e ∈ st.target_index, e.2 < st.slices.length ∧ e.1 ∈ (st.getSlice e.2).target) ∧
  (∀ sid, sid < st.slices.length → ∀ t ∈ (st.getSlice sid).target,
      alookup st.target_index t = some sid) ∧
  (∀ e1 ∈ st.target_index, ∀ e2 ∈ st.target_index, e1.1 ≠ e2.1 →
      tuples_conflict e1.1 e2.1 = false)

theorem goodIndex_lookup {st : SwitchStatus} (h : goodIndex st) {sid : ℕ} {t : Tup}
    (ht : t ∈ (st.getSlice sid).target) : alookup st.target_index t = some sid := by
  by_cases hs : sid < st.slices.length
  · exact h.2.2.1 sid hs t ht
  · rw [getSlice_default st sid (Nat.le_of_not_lt hs)] at ht
    exact absurd ht (Finset.not_mem_empty t)

theorem goodIndex_entry {st : SwitchStatus} (h : goodIndex st) {sid : ℕ} {t : Tup}
    (ht : t ∈ (st.getSlice sid).target) : (t, sid) ∈ st.target_index :=
  alookup_mem _ _ _ (goodIndex_lookup h ht)

theorem goodIndex_disjoint {st : SwitchStatus} (h : goodIndex st) {s1 s2 : ℕ} {t : Tup}
    (h1 : t ∈ (st.getSlice s1).target) (h2 : t ∈ (st.getSlice s2).target) : s1 = s2 := by
  have e1 := goodIndex_lookup h h1
  have e2 := goodIndex_lookup h h2
  rw [e1] at e2
  exact Option.some.inj e2

theorem goodIndex_pairwise {st : SwitchStatus} (h : goodIndex st) {s1 s2 : ℕ}
    {t1 t2 : Tup} (h1 : t1 ∈ (st.getSlice s1).target) (h2 : t2 ∈ (st.getSlice s2).target)
    (hne : t1 ≠ t2) : tuples_conflict t1 t2 = false :=
  h.2.2.2 _ (goodIndex_entry h h1) _ (goodIndex_entry h h2) hne

theorem goodIndex_none {st : SwitchStatus} (h : goodIndex st) {t : Tup}
    (ht : ∀ s, t ∉ (st.getSlice s).target) : alookup st.target_index t = none := by
  rcases hl : alookup st.target_index t with _ | s
  · rfl
  · exact absurd (h.2.1 _ (alookup_mem _ _ _ hl)).2 (ht s)

/-- Abandoning an actual index entry erases its key from the index and from
every target set, and keeps the index coherent. -/
theorem abandon_entry (st : SwitchStatus) (h : goodIndex st) (e : Tup × ℕ)
    (he : e ∈ st.target_index) :
    (st.abandon e.2 e.1).slices.length = st.slices.length ∧
    (∀ s, ((st.abandon e.2 e.1).getSlice s).target = (st.getSlice s).target.erase e.1) ∧
    (st.abandon e.2 e.1).target_index = aerase st.target_index e.1 ∧
    goodIndex (st.abandon e.2 e.1) := by
  have hmem : e.1 ∈ (st.getSlice e.2).target := (h.2.1 e he).2
  have hlen : e.2 < st.slices.length := (h.2.1 e he).1
  have hbody : st.abandon e.2 e.1 =
      { st.setSlice e.2
          { st.getSlice e.2 with target := (st.getSlice e.2).target.erase e.1 } with
        target_index := aerase st.target_index e.1,
        invalid_slices := insert e.2 st.invalid_slices } := by
    unfold SwitchStatus.abandon
    rw [if_neg (not_not_intro hmem)]
    rfl
  have hL : (st.abandon e.2 e.1).slices.length = st.slices.length := by
    rw [hbody]
    exact setSlice_length st e.2 _
  have hT : ∀ s, ((st.abandon e.2 e.1).getSlice s).target =
      (st.getSlice s).target.erase e.1 := by
    intro s
    rw [hbody]
    show ((st.setSlice e.2
        { st.getSlice e.2 with target := (st.getSlice e.2).target.erase e.1 }).getSlice
          s).target = (st.getSlice s).target.erase e.1
    by_cases hs : s = e.2
    · rw [hs, getSlice_setSlice_self _ _ _ hlen]
    · rw [getSlice_setSlice_ne _ _ _ _ hs]
      refine (Finset.erase_eq_of_not_mem ?_).symm
      intro hx
      exact hs (goodIndex_disjoint h hx hmem)
  have hI : (st.abandon e.2 e.1).target_index = aerase st.target_index e.1 := by
    rw [hbody]
  refine ⟨hL, hT, hI, ?_, ?_, ?_, ?_⟩
  · rw [hI]
    exact akeys_nodup_aerase _ _ h.1
  · intro e' he'
    rw [hI] at he'
    obtain ⟨hmem', hne'⟩ := (mem_aerase _ _ _).mp he'
    obtain ⟨hb, ht'⟩ := h.2.1 e' hmem'
    refine ⟨by rw [hL]; exact hb, ?_⟩
    rw [hT e'.2]
    exact Finset.mem_erase.mpr ⟨hne', ht'⟩
  · intro sid hsid t ht
    rw [hT sid] at ht
    obtain ⟨htne, htm⟩ := Finset.mem_erase.mp ht
    rw [hI, alookup_aerase_ne _ _ _ (Ne.symm htne)]
    exact h.2.2.1 sid (by rw [hL] at hsid; exact hsid) t htm
  · intro e1 he1 e2 he2 hne
    rw [hI] at he1 he2
    exact h.2.2.2 e1 ((mem_aerase _ _ _).mp he1).1 e2 ((mem_aerase _ _ _).mp he2).1 hne

/-- Folding `abandon` over a duplicate-free batch of index entries removes
exactly those keys from the index and from every target set, preserving
coherence. -/
theorem abandon_fold :
    ∀ (L : List (Tup × ℕ)) (st : SwitchStatus), goodIndex st →
      (∀ e ∈ L, e ∈ st.target_index) → (akeys L).Nodup →
      (L.foldl (fun s e => s.abandon e.2 e.1) st).slices.length = st.slices.length ∧
      (∀ s, ((L.foldl (fun s e => s.abandon e.2 e.1) st).getSlice s).target =
          (st.getSlice s).target \ (akeys L).toFinset) ∧
      (∀ k, alookup (L.foldl (fun s e => s.abandon e.2 e.1) st).target_index k =
          if k ∈ akeys L then none else alookup st.target_index k) ∧
      (∀ e ∈ (L.foldl (fun s e => s.abandon e.2 e.1) st).target_index,
          e ∈ st.target_index) ∧
      goodIndex (L.foldl (fun s e => s.abandon e.2 e.1) st)
  | [], st, hg, _, _ => by
    refine ⟨rfl, fun s => ?_, fun k => ?_, fun e he => he, hg⟩
    · simp [akeys]
    · simp [akeys]
  | e :: L', st, hg, hL, hnd => by
    obtain ⟨hlen1, hT1, hI1, hg1⟩ := abandon_entry st hg e (hL e (List.mem_cons_self e L'))
    have hnd2 : (akeys L').Nodup := by
      simp only [akeys, List.map_cons, List.nodup_cons] at hnd
      exact hnd.2
    have hkey : e.1 ∉ akeys L' := by
      simp only [akeys, List.map_cons, List.nodup_cons] at hnd
      exact hnd.1
    have hL2 : ∀ e2 ∈ L', e2 ∈ (st.abandon e.2 e.1).target_index := by
      intro e2 he2
      rw [hI1]
      refine (mem_aerase _ _ _).mpr ⟨hL e2 (List.mem_cons_of_mem e he2), ?_⟩
      intro hk
      exact hkey (List.mem_map.mpr ⟨e2, he2, hk⟩)
    obtain ⟨ihlen, ihT, ihI, ihSub, ihg⟩ :=
      abandon_fold L' (st.abandon e.2 e.1) hg1 hL2 hnd2
    rw [List.foldl_cons]
    refine ⟨ihlen.trans hlen1, ?_, ?_, ?_, ihg⟩
    · intro s
      rw [ihT s, hT1 s]
      ext x
      simp only [Finset.mem_sdiff, Finset.mem_erase, List.mem_toFinset, akeys,
        List.map_cons, List.mem_cons]
      tauto
    · intro k
      rw [ihI k, hI1]
      simp only [akeys, List.map_cons, List.mem_cons]
      by_cases hk1 : k ∈ List.map Prod.fst L'
      · rw [if_pos hk1, if_pos (Or.inr hk1)]
      · by_cases hke : k = e.1
        · rw [if_neg hk1, hke, alookup_aerase, if_pos (Or.inl rfl)]
        · rw [if_neg hk1, alookup_aerase_ne _ _ _ (fun hh => hke hh.symm),
            if_neg (by rintro (h1 | h2); exacts [hke h1, hk1 h2])]
    · intro e2 he2
      have hsub := ihSub e2 he2
      rw [hI1] at hsub
      exact ((mem_aerase _ _ _).mp hsub).1

set_option maxHeartbeats 1000000 in
/-- Full specification of `adopt` from a coherent state: coherence is kept;
the tuple ends up owned by the chosen slice; nothing but the tuple is ever
added to a target; non-conflicting endpoints are untouched; every distinct
endpoint conflicting with the tuple is expelled from every target; and the
tuple belongs to no slice other than the chosen one. -/
theorem adopt_spec (st : SwitchStatus) (sid : ℕ) (tup : Tup)
    (h : goodIndex st) (hsid : sid < st.slices.length) :
    goodIndex (st.adopt sid tup) ∧
    (st.adopt sid tup).slices.length = st.slices.length ∧
    (tup ∈ ((st.adopt sid tup).getSlice sid).target ∧
      alookup (st.adopt sid tup).target_index tup = some sid) ∧
    (∀ s, ∀ q ∈ ((st.adopt sid tup).getSlice s).target,
        q ∈ (st.getSlice s).target ∨ (q = tup ∧ s = sid)) ∧
    (∀ s, ∀ q ∈ (st.getSlice s).target, q ≠ tup → tuples_conflict tup q = false →
        q ∈ ((st.adopt sid tup).getSlice s).target ∧
        alookup (st.adopt sid tup).target_index q = alookup st.target_index q) ∧
    (∀ q, q ≠ tup → tuples_conflict tup q = true →
        ∀ s, q ∉ ((st.adopt sid tup).getSlice s).target) ∧
    (∀ s, s ≠ sid → tup ∉ ((st.adopt sid tup).getSlice s).target) := by
  by_cases hin : tup ∈ (st.getSlice sid).target
  · have hid : st.adopt sid tup = st := by
      unfold SwitchStatus.adopt
      rw [if_pos hin]
    rw [hid]
    refine ⟨h, rfl, ⟨hin, goodIndex_lookup h hin⟩, ?_, ?_, ?_, ?_⟩
    · exact fun s q hq => Or.inl hq
    · exact fun s q hq _ _ => ⟨hq, rfl⟩
    · intro q hqne hqc s hq
      have hp := goodIndex_pairwise h hin hq (Ne.symm hqne)
      rw [hp] at hqc
      exact Bool.noConfusion hqc
    · intro s hs hq
      exact hs (goodIndex_disjoint h hq hin)
  · set L := st.target_index.filter
        (fun e => tuples_conflict tup e.1 && !(decide (e.1 = tup) && decide (e.2 = sid)))
      with hLdef
    set A := L.foldl (fun s e => s.abandon e.2 e.1) st with hAdef
    have hbody : st.adopt sid tup =
        { A.setSlice sid
            { A.getSlice sid with target := insert tup (A.getSlice sid).target } with
          target_index := aset A.target_index tup sid,
          invalid_slices := insert sid A.invalid_slices } := by
      rw [hAdef, hLdef]
      unfold SwitchStatus.adopt
      rw [if_neg hin]
      rfl
    have hLsub : ∀ e ∈ L, e ∈ st.target_index := fun e he => (List.mem_filter.mp he).1
    have hLnd : (akeys L).Nodup := by
      rw [hLdef]
      exact List.Nodup.sublist (List.Sublist.map Prod.fst (List.filter_sublist _)) h.1
    have hnotin : (tup, sid) ∉ st.target_index := by
      intro hmem
      exact hin (h.2.1 _ hmem).2
    have hLk : ∀ k, k ∈ akeys L ↔
        (alookup st.target_index k ≠ none ∧ tuples_conflict tup k = true) := by
      intro k
      constructor
      · intro hk
        obtain ⟨e, he, hek⟩ := List.mem_map.mp hk
        obtain ⟨hei, hf⟩ := List.mem_filter.mp he
        obtain ⟨hc, -⟩ := (Bool.and_eq_true _ _).mp hf
        rw [← hek]
        refine ⟨?_, hc⟩
        rw [mem_alookup st.target_index h.1 e.1 e.2 hei]
        simp
      · rintro ⟨hl, hc⟩
        rcases ha : alookup st.target_index k with _ | v
        · exact absurd ha hl
        · have hmem := alookup_mem _ _ _ ha
          refine List.mem_map.mpr ⟨(k, v), List.mem_filter.mpr ⟨hmem, ?_⟩, rfl⟩
          rw [Bool.and_eq_true]
          refine ⟨hc, ?_⟩
          by_cases hkt : k = tup
          · by_cases hvs : v = sid
            · exfalso
              apply hnotin
              rw [← hkt, ← hvs]
              exact hmem
            · simp [hkt, hvs]
          · simp [hkt]
    obtain ⟨hAlen, hAT, hAI, hASub, hAg⟩ := abandon_fold L st h hLsub hLnd
    rw [← hAdef] at hAlen hAT hAI hASub hAg
    have hAkeys : ∀ k, k ∈ akeys L → alookup A.target_index k = none := by
      intro k hk
      rw [hAI k, if_pos hk]
    have hAkeep : ∀ k, k ∉ akeys L →
        alookup A.target_index k = alookup st.target_index k := by
      intro k hk
      rw [hAI k, if_neg hk]
    have htupA : ∀ s, tup ∉ (A.getSlice s).target := by
      intro s hts
      rw [hAT s] at hts
      obtain ⟨hts1, hts2⟩ := Finset.mem_sdiff.mp hts
      apply hts2
      rw [List.mem_toFinset, hLk tup]
      refine ⟨?_, tuples_conflict_refl tup⟩
      rw [goodIndex_lookup h hts1]
      simp
    have hlen2 : (st.adopt sid tup).slices.length = st.slices.length := by
      rw [hbody]
      exact (setSlice_length A sid _).trans hAlen
    have hT2 : ∀ s, ((st.adopt sid tup).getSlice s).target =
        if s = sid then insert tup (A.getSlice sid).target else (A.getSlice s).target := by
      intro s
      rw [hbody]
      show ((A.setSlice sid
          { A.getSlice sid with target := insert tup (A.getSlice sid).target }).getSlice
            s).target = _
      by_cases hs : s = sid
      · rw [if_pos hs, hs, getSlice_setSlice_self _ _ _ (by rw [hAlen]; exact hsid)]
      · rw [if_neg hs, getSlice_setSlice_ne _ _ _ _ hs]
    have hI2 : (st.adopt sid tup).target_index = aset A.target_index tup sid := by
      rw [hbody]
    refine ⟨?_, hlen2, ?_, ?_, ?_, ?_, ?_⟩
    · refine ⟨?_, ?_, ?_, ?_⟩
      · rw [hI2]
        exact akeys_nodup_aset _ _ _ hAg.1
      · intro e2 he2
        rw [hI2] at he2
        rcases (mem_aset _ _ _ _).mp he2 with ⟨heA, hene⟩ | rfl
        · obtain ⟨hb, hm⟩ := hAg.2.1 e2 heA
          refine ⟨by rw [hlen2, ← hAlen]; exact hb, ?_⟩
          rw [hT2 e2.2]
          by_cases hs : e2.2 = sid
          · rw [if_pos hs, ← hs]
            exact Finset.mem_insert_of_mem hm
          · rw [if_neg hs]
            exact hm
        · refine ⟨by rw [hlen2]; exact hsid, ?_⟩
          rw [hT2 (tup, sid).2, if_pos rfl]
          exact Finset.mem_insert_self _ _
      · intro sid2 hsid2 t ht
        rw [hT2 sid2] at ht
        rw [hI2]
        by_cases hs : sid2 = sid
        · rw [if_pos hs] at ht
          rcases Finset.mem_insert.mp ht with rfl | ht2
          · rw [alookup_aset, hs]
          · rw [hAT sid] at ht2
            obtain ⟨ht3, ht4⟩ := Finset.mem_sdiff.mp ht2
            have htne : t ≠ tup := by
              rintro rfl
              exact hin ht3
            rw [alookup_aset_ne _ _ _ _ (Ne.symm htne),
              hAkeep t (fun hx => ht4 (List.mem_toFinset.mpr hx)), hs]
            exact goodIndex_lookup h ht3
        · rw [if_neg hs] at ht
          rw [hAT sid2] at ht
          obtain ⟨ht3, ht4⟩ := Finset.mem_sdiff.mp ht
          have htne : t ≠ tup := by
            rintro rfl
            apply ht4
            rw [List.mem_toFinset, hLk t]
            exact ⟨by rw [goodIndex_lookup h ht3]; simp, tuples_conflict_refl t⟩
          rw [alookup_aset_ne _ _ _ _ (Ne.symm htne),
            hAkeep t (fun hx => ht4 (List.mem_toFinset.mpr hx))]
          exact goodIndex_lookup h ht3
      · intro e1 he1 e2 he2 hne
        rw [hI2] at he1 he2
        have hside : ∀ e3, e3 ∈ aset A.target_index tup sid →
            e3 = (tup, sid) ∨
              (e3 ∈ st.target_index ∧ tuples_conflict tup e3.1 = false) := by
          intro e3 he3
          rcases (mem_aset _ _ _ _).mp he3 with ⟨heA, hene⟩ | rfl
          · refine Or.inr ⟨hASub e3 heA, ?_⟩
            have hlook : alookup A.target_index e3.1 = some e3.2 :=
              mem_alookup _ hAg.1 _ _ heA
            by_cases hkL : e3.1 ∈ akeys L
            · rw [hAkeys e3.1 hkL] at hlook
              exact Option.noConfusion hlook
            · rcases hc : tuples_conflict tup e3.1 with _ | _
              · rfl
              · exfalso
                apply hkL
                rw [hLk e3.1]
                refine ⟨?_, hc⟩
                rw [← hAkeep e3.1 hkL, hlook]
                simp
          · exact Or.inl rfl
        rcases hside e1 he1 with rfl | ⟨h1m, h1c⟩
        · rcases hside e2 he2 with rfl | ⟨h2m, h2c⟩
          · exact absurd rfl hne
          · exact h2c
        · rcases hside e2 he2 with rfl | ⟨h2m, h2c⟩
          · rw [tuples_conflict_comm]
            exact h1c
          · exact h.2.2.2 e1 h1m e2 h2m hne
    · constructor
      · rw [hT2 sid, if_pos rfl]
        exact Finset.mem_insert_self tup _
      · rw [hI2]
        exact alookup_aset _ _ _
    · intro s q hq
      rw [hT2 s] at hq
      by_cases hs : s = sid
      · rw [if_pos hs] at hq
        rcases Finset.mem_insert.mp hq with rfl | hq2
        · exact Or.inr ⟨rfl, hs⟩
        · rw [hAT sid] at hq2
          rw [hs]
          exact Or.inl (Finset.mem_sdiff.mp hq2).1
      · rw [if_neg hs] at hq
        rw [hAT s] at hq
        exact Or.inl (Finset.mem_sdiff.mp hq).1
    · intro s q hq hqne hqc
      have hqnotL : q ∉ akeys L := by
        rw [hLk q]
        rintro ⟨-, hc⟩
        rw [hqc] at hc
        exact Bool.noConfusion hc
      have hqA : q ∈ (A.getSlice s).target := by
        rw [hAT s]
        exact Finset.mem_sdiff.mpr ⟨hq, fun hx => hqnotL (List.mem_toFinset.mp hx)⟩
      constructor
      · rw [hT2 s]
        by_cases hs : s = sid
        · rw [if_pos hs]
          exact Finset.mem_insert_of_mem (hs ▸ hqA)
        · rw [if_neg hs]
          exact hqA
      · rw [hI2, alookup_aset_ne _ _ _ _ (Ne.symm hqne)]
        exact hAkeep q hqnotL
    · intro q hqne hqc s hq
      rw [hT2 s] at hq
      by_cases hs : s = sid
      · rw [if_pos hs] at hq
        rcases Finset.mem_insert.mp hq with rfl | hq2
        · exact hqne rfl
        · rw [hAT sid] at hq2
          obtain ⟨hq3, hq4⟩ := Finset.mem_sdiff.mp hq2
          apply hq4
          rw [List.mem_toFinset, hLk q]
          refine ⟨?_, hqc⟩
          rw [goodIndex_lookup h hq3]
          simp
      · rw [if_neg hs] at hq
        rw [hAT s] at hq
        obtain ⟨hq3, hq4⟩ := Finset.mem_sdiff.mp hq
        apply hq4
        rw [List.mem_toFinset, hLk q]
        refine ⟨?_, hqc⟩
        rw [goodIndex_lookup h hq3]
        simp
    · intro s hs hq
      rw [hT2 s, if_neg hs] at hq
      exact htupA s hq

set_option maxHeartbeats 1000000 in
/-- Folding `adopt` of a duplicate-free, pairwise-non-conflicting batch of
tuples into one slice of a coherent state: all batch members end up owned by
that slice and by it alone, untouched non-conflicting endpoints stay put,
and every outside endpoint conflicting with a batch member is expelled from
every target. -/
theorem adopt_fold (sid : ℕ) :
    ∀ (M : List Tup) (st : SwitchStatus), goodIndex st → sid < st.slices.length →
      M.Nodup → (∀ a ∈ M, ∀ b ∈ M, a ≠ b → tuples_conflict a b = false) →
      goodIndex (M.foldl (fun s t => s.adopt sid t) st) ∧
      (M.foldl (fun s t => s.adopt sid t) st).slices.length = st.slices.length ∧
      (∀ t ∈ M, t ∈ ((M.foldl (fun s t => s.adopt sid t) st).getSlice sid).target ∧
          alookup (M.foldl (fun s t => s.adopt sid t) st).target_index t = some sid) ∧
      (∀ s, ∀ q ∈ ((M.foldl (fun s t => s.adopt sid t) st).getSlice s).target,
          q ∈ (st.getSlice s).target ∨ (q ∈ M ∧ s = sid)) ∧
      (∀ s, ∀ q ∈ (st.getSlice s).target, q ∉ M →
          (∀ m ∈ M, tuples_conflict m q = false) →
          q ∈ ((M.foldl (fun s t => s.adopt sid t) st).getSlice s).target ∧
          alookup (M.foldl (fun s t => s.adopt sid t) st).target_index q =
            alookup st.target_index q) ∧
      (∀ q, q ∉ M → (∃ m ∈ M, tuples_conflict m q = true) →
          ∀ s, q ∉ ((M.foldl (fun s t => s.adopt sid t) st).getSlice s).target) ∧
      (∀ m ∈ M, ∀ s, s ≠ sid →
          m ∉ ((M.foldl (fun s t => s.adopt sid t) st).getSlice s).target)
  | [], st, hg, hsid, _, _ => by
    refine ⟨hg, rfl, ?_, ?_, ?_, ?_, ?_⟩
    · intro t ht
      cases ht
    · exact fun s q hq => Or.inl hq
    · exact fun s q hq _ _ => ⟨hq, rfl⟩
    · rintro q - ⟨m, hm, -⟩
      cases hm
    · intro m hm
      cases hm
  | m :: M', st, hg, hsid, hnd, hpw => by
    obtain ⟨hg1, hlen1, ⟨hmem1, hlook1⟩, hAdd1, hKeep1, hVict1, hOnly1⟩ :=
      adopt_spec st sid m hg hsid
    have hnd2 : M'.Nodup := (List.nodup_cons.mp hnd).2
    have hmM2 : m ∉ M' := (List.nodup_cons.mp hnd).1
    have hpw2 : ∀ a ∈ M', ∀ b ∈ M', a ≠ b → tuples_conflict a b = false := by
      intro a ha b hb hab
      exact hpw a (List.mem_cons_of_mem m ha) b (List.mem_cons_of_mem m hb) hab
    obtain ⟨ihg, ihlen, ihMem, ihAdd, ihKeep, ihVict, ihOnly⟩ :=
      adopt_fold sid M' (st.adopt sid m) hg1 (by rw [hlen1]; exact hsid) hnd2 hpw2
    rw [List.foldl_cons]
    refine ⟨ihg, ihlen.trans hlen1, ?_, ?_, ?_, ?_, ?_⟩
    · intro t ht
      rcases List.mem_cons.mp ht with rfl | ht2
      · have hconf : ∀ x ∈ M', tuples_conflict x t = false := by
          intro x hx
          exact hpw x (List.mem_cons_of_mem t hx) t (List.mem_cons_self t M')
            (fun hxt => hmM2 (hxt ▸ hx))
        obtain ⟨hk1, hk2⟩ := ihKeep sid t hmem1 hmM2 hconf
        exact ⟨hk1, hk2.trans hlook1⟩
      · exact ihMem t ht2
    · intro s q hq
      rcases ihAdd s q hq with hq1 | ⟨hq1, rfl⟩
      · rcases hAdd1 s q hq1 with hq2 | ⟨rfl, rfl⟩
        · exact Or.inl hq2
        · exact Or.inr ⟨List.mem_cons_self _ _, rfl⟩
      · exact Or.inr ⟨List.mem_cons_of_mem m hq1, rfl⟩
    · intro s q hq hqM hqc
      have hqm : q ≠ m := fun hqm =>
        hqM (by rw [hqm]; exact List.mem_cons_self m M')
      have hcm : tuples_conflict m q = false := hqc m (List.mem_cons_self m M')
      obtain ⟨hk1, hk2⟩ := hKeep1 s q hq hqm hcm
      obtain ⟨hk3, hk4⟩ := ihKeep s q hk1 (fun hc => hqM (List.mem_cons_of_mem m hc))
        (fun x hx => hqc x (List.mem_cons_of_mem m hx))
      exact ⟨hk3, hk4.trans hk2⟩
    · rintro q hqM ⟨m0, hm0, hc0⟩ s
      rcases List.mem_cons.mp hm0 with rfl | hm02
      · intro hq
        rcases ihAdd s q hq with hq1 | ⟨hq1, rfl⟩
        · exact hVict1 q
            (fun hqm => hqM (by rw [hqm]; exact List.mem_cons_self m0 M')) hc0 s hq1
        · exact hqM (List.mem_cons_of_mem m0 hq1)
      · exact ihVict q (fun hc => hqM (List.mem_cons_of_mem m hc)) ⟨m0, hm02, hc0⟩ s
    · intro x hx s hs
      rcases List.mem_cons.mp hx with rfl | hx2
      · intro hq
        rcases ihAdd s x hq with hq1 | ⟨hq1, rfl⟩
        · exact hOnly1 s hs hq1
        · exact hs rfl
      · exact ihOnly x hx2 s hs

theorem newSlice_good (st : SwitchStatus) (h : goodIndex st) :
    goodIndex (st.newSlice).2 := by
  refine ⟨h.1, ?_, ?_, h.2.2.2⟩
  · intro e he
    obtain ⟨hb, hm⟩ := h.2.1 e he
    refine ⟨by rw [newSlice_length]; omega, ?_⟩
    rw [getSlice_newSlice, if_pos hb]
    exact hm
  · intro sid hsid t ht
    rw [getSlice_newSlice] at ht
    by_cases hb : sid < st.slices.length
    · rw [if_pos hb] at ht
      exact h.2.2.1 sid hb t ht
    · rw [if_neg hb] at ht
      exact absurd ht (Finset.not_mem_empty t)

/-- A successful maximum-overlap search returns a slice id that is actually
indexed, hence in range. -/
theorem findBest_bound (st : SwitchStatus) (tups : Finset Tup) (h : goodIndex st)
    (b : ℕ) (hb : st.findBest tups = some b) : b < st.slices.length := by
  unfold SwitchStatus.findBest at hb
  have hstep : ∀ (acc : Option ℕ × ℕ) (tup : Tup),
      (∀ b2, acc.1 = some b2 → b2 < st.slices.length) →
      ∀ b2, ((match alookup st.target_index tup with
        | none => acc
        | some sid =>
          let overlap := ((st.getSlice sid).target ∩ tups).card
          if overlap > acc.2 then (some sid, overlap) else acc) : Option ℕ × ℕ).1 =
          some b2 →
        b2 < st.slices.length := by
    intro acc tup hacc
    rcases hl : alookup st.target_index tup with _ | sid
    · exact hacc
    · intro b2
      show ((if ((st.getSlice sid).target ∩ tups).card > acc.2
          then (some sid, ((st.getSlice sid).target ∩ tups).card)
          else acc) : Option ℕ × ℕ).1 = some b2 → b2 < st.slices.length
      by_cases hov : ((st.getSlice sid).target ∩ tups).card > acc.2
      · rw [if_pos hov]
        intro hb2
        have hbb : some sid = some b2 := hb2
        rw [← Option.some.inj hbb]
        exact (h.2.1 _ (alookup_mem _ _ _ hl)).1
      · rw [if_neg hov]
        exact hacc b2
  exact foldl_invariant (fun acc : Option ℕ × ℕ =>
      ∀ b2, acc.1 = some b2 → b2 < st.slices.length) _ hstep (tsort tups) (none, 0)
    (fun b2 hb2 => Option.noConfusion hb2) b hb

theorem requestValid_pairwise {tups : Finset Tup} (h : requestValid tups = true) :
    ∀ a ∈ tups, ∀ b ∈ tups, a ≠ b → tuples_conflict a b = false := by
  have hp := of_decide_eq_true h
  intro a ha b hb hab
  exact (hp a ha).2 b hb (Ne.symm hab)

theorem goodIndex_init : goodIndex SwitchStatus.init := by
  refine ⟨List.nodup_nil, ?_, ?_, ?_⟩
  · intro e he
    cases he
  · intro sid hsid t ht
    exact absurd hsid (Nat.not_lt_zero sid)
  · intro e1 he1
    cases he1

set_option maxHeartbeats 2000000 in
/-- Master specification of `create_slice` from a coherent state: coherence
is preserved, and on success the returned slice's target is exactly the
request, every request member is indexed to it, previously owned endpoints
conflicting with no request member survive somewhere (same slice, or the
freshly created sibling), and previously owned endpoints conflicting with an
adopted request member are expelled from every slice. -/
theorem create_slice_spec (st : SwitchStatus) (tups : Finset Tup)
    (inr outr : Tup → Option ℕ) (h : goodIndex st) :
    goodIndex (st.create_slice tups inr outr).2 ∧
    ∀ sid, (st.create_slice tups inr outr).1 = some sid →
      ((st.create_slice tups inr outr).2.getSlice sid).target = tups ∧
      (∀ t ∈ tups, alookup (st.create_slice tups inr outr).2.target_index t = some sid) ∧
      (∀ q s0, q ∈ (st.getSlice s0).target → q ∉ tups →
        (∀ t ∈ tups, tuples_conflict t q = false) →
        ∃ s2, q ∈ ((st.create_slice tups inr outr).2.getSlice s2).target ∧
          alookup (st.create_slice tups inr outr).2.target_index q = some s2) ∧
      (∀ q s0, q ∈ (st.getSlice s0).target → q ∉ tups →
        (∃ t ∈ tups, tuples_conflict t q = true) →
        ∀ s2, q ∉ ((st.create_slice tups inr outr).2.getSlice s2).target) := by
  by_cases hemp : tups = ∅
  · have hr : st.create_slice tups inr outr = (none, st) := by
      unfold SwitchStatus.create_slice
      rw [if_pos hemp]
    rw [hr]
    exact ⟨h, fun sid hsid => Option.noConfusion hsid⟩
  by_cases hval : requestValid tups
  case neg =>
    have hr : st.create_slice tups inr outr = (none, st) := by
      unfold SwitchStatus.create_slice
      rw [if_neg hemp, if_pos hval]
    rw [hr]
    exact ⟨h, fun sid hsid => Option.noConfusion hsid⟩
  case pos =>
    have hps : ∀ a ∈ tups, ∀ b ∈ tups, a ≠ b → tuples_conflict a b = false :=
      requestValid_pairwise hval
    have hur : st.update_rates tups inr outr = st := rfl
    rcases hfb : st.findBest tups with _ | best
    · set F := (tsort tups).foldl (fun s t => s.adopt (st.newSlice).1 t) (st.newSlice).2
        with hF
      have hr : st.create_slice tups inr outr = (some (st.newSlice).1, F) := by
        rw [hF]
        unfold SwitchStatus.create_slice
        rw [if_neg hemp, if_neg (not_not_intro hval)]
        dsimp only
        rw [hur, hfb]
      obtain ⟨fg, flen, fMem, fAdd, fKeep, fVict, fOnly⟩ :=
        adopt_fold (st.newSlice).1 (tsort tups) (st.newSlice).2 (newSlice_good st h)
          (by rw [newSlice_fst, newSlice_length]; omega)
          (fsort_nodup tups)
          (fun a ha b hb hab => hps a (mem_tsort.mp ha) b (mem_tsort.mp hb) hab)
      rw [← hF] at fg flen fMem fAdd fKeep fVict fOnly
      rw [hr]
      refine ⟨fg, ?_⟩
      intro sid hsid
      have hsid2 : sid = (st.newSlice).1 := (Option.some.inj hsid).symm
      subst hsid2
      refine ⟨?_, ?_, ?_, ?_⟩
      · ext q
        constructor
        · intro hq
          rcases fAdd _ q hq with hq1 | ⟨hq1, -⟩
          · rw [getSlice_newSlice_target, newSlice_fst,
              getSlice_default st _ (le_refl _)] at hq1
            exact absurd hq1 (Finset.not_mem_empty q)
          · exact mem_tsort.mp hq1
        · intro hq
          exact (fMem q (mem_tsort.mpr hq)).1
      · intro t ht
        exact (fMem t (mem_tsort.mpr ht)).2
      · intro q s0 hq hqt hqc
        have hq2 : q ∈ ((st.newSlice).2.getSlice s0).target := by
          rw [getSlice_newSlice_target]
          exact hq
        obtain ⟨hk1, hk2⟩ := fKeep s0 q hq2 (fun hc => hqt (mem_tsort.mp hc))
          (fun m hm => hqc m (mem_tsort.mp hm))
        refine ⟨s0, hk1, ?_⟩
        rw [hk2, newSlice_index]
        exact goodIndex_lookup h hq
      · rintro q s0 hq hqt ⟨t, ht, hc⟩ s2
        exact fVict q (fun hc2 => hqt (mem_tsort.mp hc2)) ⟨t, mem_tsort.mpr ht, hc⟩ s2
    · set F1 := (tsort (tups \ (st.getSlice best).target)).foldl
          (fun s t => s.adopt best t) st with hF1
      set F2 := (tsort ((F1.getSlice best).target \ tups)).foldl
          (fun s t => s.adopt (F1.newSlice).1 t) (F1.newSlice).2 with hF2
      have hr : st.create_slice tups inr outr = (some best, F2) := by
        rw [hF2, hF1]
        unfold SwitchStatus.create_slice
        rw [if_neg hemp, if_neg (not_not_intro hval)]
        dsimp only
        rw [hur, hfb]
      have hbest : best < st.slices.length := findBest_bound st tups h best hfb
      obtain ⟨g1, len1, mem1, add1, keep1, vict1, only1⟩ :=
        adopt_fold best (tsort (tups \ (st.getSlice best).target)) st h hbest
          (fsort_nodup _)
          (fun a ha b hb hab => hps a (Finset.mem_sdiff.mp (mem_tsort.mp ha)).1
            b (Finset.mem_sdiff.mp (mem_tsort.mp hb)).1 hab)
      rw [← hF1] at g1 len1 mem1 add1 keep1 vict1 only1
      have htupsF1 : ∀ t ∈ tups, t ∈ (F1.getSlice best).target ∧
          alookup F1.target_index t = some best := by
        intro t ht
        by_cases htb : t ∈ (st.getSlice best).target
        · obtain ⟨hk1, hk2⟩ := keep1 best t htb
            (fun hc => (Finset.mem_sdiff.mp (mem_tsort.mp hc)).2 htb)
            (fun m hm => by
              obtain ⟨hm1, hm2⟩ := Finset.mem_sdiff.mp (mem_tsort.mp hm)
              exact hps m hm1 t ht (fun hmt => hm2 (by rw [hmt]; exact htb)))
          exact ⟨hk1, hk2.trans (goodIndex_lookup h htb)⟩
        · exact mem1 t (mem_tsort.mpr (Finset.mem_sdiff.mpr ⟨ht, htb⟩))
      have hns1 : (F1.newSlice).1 = st.slices.length := by
        rw [newSlice_fst, len1]
      have hbne : best ≠ (F1.newSlice).1 := by
        rw [hns1]
        omega
      obtain ⟨g2, len2, mem2, add2, keep2, vict2, only2⟩ :=
        adopt_fold (F1.newSlice).1 (tsort ((F1.getSlice best).target \ tups))
          (F1.newSlice).2 (newSlice_good F1 g1)
          (by rw [newSlice_fst, newSlice_length]; omega)
          (fsort_nodup _)
          (fun a ha b hb hab => by
            obtain ⟨ha1, -⟩ := Finset.mem_sdiff.mp (mem_tsort.mp ha)
            obtain ⟨hb1, -⟩ := Finset.mem_sdiff.mp (mem_tsort.mp hb)
            exact goodIndex_pairwise g1 ha1 hb1 hab)
      rw [← hF2] at g2 len2 mem2 add2 keep2 vict2 only2
      rw [hr]
      refine ⟨g2, ?_⟩
      intro sid hsid
      have hsid2 : best = sid := Option.some.inj hsid
      subst hsid2
      have hM2q : ∀ q, q ∈ tsort ((F1.getSlice best).target \ tups) ↔
          (q ∈ (F1.getSlice best).target ∧ q ∉ tups) := by
        intro q
        rw [mem_tsort, Finset.mem_sdiff]
      refine ⟨?_, ?_, ?_, ?_⟩
      · ext q
        constructor
        · intro hq
          rcases add2 best q hq with hq1 | ⟨hq1, hq2⟩
          · rw [getSlice_newSlice_target] at hq1
            by_cases hqt : q ∈ tups
            · exact hqt
            · exact absurd hq (only2 q ((hM2q q).mpr ⟨hq1, hqt⟩) best hbne)
          · exact absurd hq2 hbne
        · intro hq
          obtain ⟨ht1, ht2⟩ := htupsF1 q hq
          refine (keep2 best q ?_ ?_ ?_).1
          · rw [getSlice_newSlice_target]
            exact ht1
          · intro hc
            exact ((hM2q q).mp hc).2 hq
          · intro m hm
            obtain ⟨hm1, hm2⟩ := (hM2q m).mp hm
            exact goodIndex_pairwise g1 hm1 ht1 (fun hmq => hm2 (by rw [hmq]; exact hq))
      · intro t ht
        obtain ⟨ht1, ht2⟩ := htupsF1 t ht
        have hk := keep2 best t (by rw [getSlice_newSlice_target]; exact ht1)
          (fun hc => ((hM2q t).mp hc).2 ht)
          (fun m hm => by
            obtain ⟨hm1, hm2⟩ := (hM2q m).mp hm
            exact goodIndex_pairwise g1 hm1 ht1 (fun hmq => hm2 (by rw [hmq]; exact ht)))
        rw [hk.2, newSlice_index]
        exact ht2
      · intro q s0 hq hqt hqc
        obtain ⟨hk1, hk2⟩ := keep1 s0 q hq
          (fun hc => hqt (Finset.mem_sdiff.mp (mem_tsort.mp hc)).1)
          (fun m hm => hqc m (Finset.mem_sdiff.mp (mem_tsort.mp hm)).1)
        by_cases hqa : q ∈ (F1.getSlice best).target
        · obtain ⟨hm1, hm2⟩ := mem2 q ((hM2q q).mpr ⟨hqa, hqt⟩)
          exact ⟨(F1.newSlice).1, hm1, hm2⟩
        · obtain ⟨hk3, hk4⟩ := keep2 s0 q (by rw [getSlice_newSlice_target]; exact hk1)
            (fun hc => hqa ((hM2q q).mp hc).1)
            (fun m hm => by
              obtain ⟨hm1, hm2⟩ := (hM2q m).mp hm
              refine goodIndex_pairwise g1 hm1 hk1 ?_
              intro hmq
              exact hqa (by rw [← hmq]; exact hm1))
          refine ⟨s0, hk3, ?_⟩
          rw [hk4, newSlice_index, hk2]
          exact goodIndex_lookup h hq
      · rintro q s0 hq hqt ⟨t, ht, hc⟩ s2 hq2
        have htb : t ∉ (st.getSlice best).target := by
          intro htb
          have hp2 := goodIndex_pairwise h htb hq
            (fun htq => hqt (by rw [← htq]; exact ht))
          rw [hp2] at hc
          exact Bool.noConfusion hc
        have hqg : ∀ s, q ∉ (F1.getSlice s).target :=
          vict1 q (fun hcm => hqt (Finset.mem_sdiff.mp (mem_tsort.mp hcm)).1)
            ⟨t, mem_tsort.mpr (Finset.mem_sdiff.mpr ⟨ht, htb⟩), hc⟩
        rcases add2 s2 q hq2 with hq3 | ⟨hq3, -⟩
        · rw [getSlice_newSlice_target] at hq3
          exact hqg s2 hq3
        · exact hqg best ((hM2q q).mp hq3).1

/-- C1: conflict exclusion.  Starting from an empty `SwitchStatus`, after any
sequence of `create_slice` calls (arbitrary request sets and rate maps), no
two distinct endpoints in the union of all slices' target sets conflict by
the §3 relation: `adopt` abandons every conflicting endpoint across all
slices before taking ownership. -/
theorem C1_conflict_exclusion
    (reqs : List (Finset Tup × (Tup → Option ℕ) × (Tup → Option ℕ)))
    (s1 s2 : ℕ) (t1 t2 : Tup)
    (h1 : t1 ∈ ((reqs.foldl
        (fun s r => (s.create_slice r.1 r.2.1 r.2.2).2) SwitchStatus.init).getSlice
          s1).target)
    (h2 : t2 ∈ ((reqs.foldl
        (fun s r => (s.create_slice r.1 r.2.1 r.2.2).2) SwitchStatus.init).getSlice
          s2).target)
    (hne : t1 ≠ t2) : tuples_conflict t1 t2 = false := by
  have hg : goodIndex (reqs.foldl
      (fun s r => (s.create_slice r.1 r.2.1 r.2.2).2) SwitchStatus.init) :=
    foldl_invariant goodIndex _
      (fun s r hs => (create_slice_spec s r.1 r.2.1 r.2.2 hs).1) reqs
      SwitchStatus.init goodIndex_init
  exact goodIndex_pairwise hg h1 h2 hne

set_option maxRecDepth 100000 in
/-- Witness: conflict exclusion applied after one `create_slice` call that
created the slice `{(1),(2)}`; its two endpoints do not conflict. -/
theorem C1_conflict_exclusion_witness : tuples_conflict [1] [2] = false :=
  C1_conflict_exclusion [({[1], [2]}, fun _ => none, fun _ => none)] 0 0 [1] [2]
    (by decide) (by decide) (by decide)

/-- Scenario for C10: a slice `{(1,100),(2)}` exists; the second request
`{(1),(2)}` overlaps it via `(2)` while `(1)` conflicts with `(1,100)`. -/
def c10pre : SwitchStatus :=
  ((SwitchStatus.init.set_datapath true).create_slice {[1, 100], [2]}
    (fun _ => none) (fun _ => none)).2

/-- The second creation call of the C10 scenario. -/
def c10run : Option ℕ × SwitchStatus :=
  c10pre.create_slice {[1], [2]} (fun _ => none) (fun _ => none)

set_option maxRecDepth 100000 in
/-- Counterexample to C10 as stated: the chosen overlap slice held `(1,100)`,
which is not in the request `{(1),(2)}`; after the successful call the
returned slice's target is exactly the request, but `(1,100)` was NOT
transferred to the freshly created sibling slice (which stays empty): it was
abandoned during adoption of the conflicting `(1)` — before the leftover set
is computed — and is gone from every slice and from the index. -/
theorem C10_create_slice_post_counterexample :
    ([1, 100] : Tup) ∈ (c10pre.getSlice 0).target ∧
    c10run.1 = some 0 ∧
    ([1, 100] : Tup) ∉ ({[1], [2]} : Finset Tup) ∧
    (c10run.2.getSlice 0).target = {[1], [2]} ∧
    c10run.2.slices.length = 2 ∧
    (c10run.2.getSlice 1).target = ∅ ∧
    alookup c10run.2.target_index [1, 100] = none := by
  decide

/-- C10 (amended): from a coherent state, a successful
`create_slice(T) = some sid` makes slice `sid`'s target exactly `T` with
every member of `T` indexed to `sid`; a previously owned endpoint outside
`T` survives (in its slice or in the fresh sibling) exactly when it
conflicts with no member of `T`, and an endpoint conflicting with an adopted
member of `T` is expelled from every slice — not transferred to the
sibling. -/
theorem C10_create_slice_post (st : SwitchStatus) (tups : Finset Tup)
    (inr outr : Tup → Option ℕ) (sid : ℕ)
    (hgood : goodIndex st)
    (hrun : (st.create_slice tups inr outr).1 = some sid) :
    ((st.create_slice tups inr outr).2.getSlice sid).target = tups ∧
    (∀ t ∈ tups, alookup (st.create_slice tups inr outr).2.target_index t = some sid) ∧
    (∀ q s0, q ∈ (st.getSlice s0).target → q ∉ tups →
      (∀ t ∈ tups, tuples_conflict t q = false) →
      ∃ s2, q ∈ ((st.create_slice tups inr outr).2.getSlice s2).target ∧
        alookup (st.create_slice tups inr outr).2.target_index q = some s2) ∧
    (∀ q s0, q ∈ (st.getSlice s0).target → q ∉ tups →
      (∃ t ∈ tups, tuples_conflict t q = true) →
      ∀ s2, q ∉ ((st.create_slice tups inr outr).2.getSlice s2).target) :=
  (create_slice_spec st tups inr outr hgood).2 sid hrun

set_option maxRecDepth 100000 in
/-- Witness: the amended C10 theorem at the concrete overlap scenario. -/
theorem C10_create_slice_post_witness :
    ((c10pre.create_slice {[1], [2]} (fun _ => none)
        (fun _ => none)).2.getSlice 0).target = {[1], [2]} ∧
    (∀ t ∈ ({[1], [2]} : Finset Tup),
      alookup (c10pre.create_slice {[1], [2]} (fun _ => none)
        (fun _ => none)).2.target_index t = some 0) ∧
    (∀ q s0, q ∈ (c10pre.getSlice s0).target → q ∉ ({[1], [2]} : Finset Tup) →
      (∀ t ∈ ({[1], [2]} : Finset Tup), tuples_conflict t q = false) →
      ∃ s2, q ∈ ((c10pre.create_slice {[1], [2]} (fun _ => none)
          (fun _ => none)).2.getSlice s2).target ∧
        alookup (c10pre.create_slice {[1], [2]} (fun _ => none)
          (fun _ => none)).2.target_index q = some s2) ∧
    (∀ q s0, q ∈ (c10pre.getSlice s0).target → q ∉ ({[1], [2]} : Finset Tup) →
      (∃ t ∈ ({[1], [2]} : Finset Tup), tuples_conflict t q = true) →
      ∀ s2, q ∉ ((c10pre.create_slice {[1], [2]} (fun _ => none)
          (fun _ => none)).2.getSlice s2).target) :=
  C10_create_slice_post c10pre {[1], [2]} (fun _ => none) (fun _ => none) 0
    (by unfold goodIndex; decide) (by decide)

end DPB
